import Mathlib

/-!
# Verification of the document segmentation and OpenAPI-extraction core

This development is a shallow embedding, in Lean 4, of the core text-processing
logic of the ChatBot-Development-Portal repository:

* `backend/services/text_parser.py` — balanced-brace extraction of JavaScript
  object literals, JS-object-to-JSON conversion, and OpenAPI validation;
* `backend/services/chunking.py` — content-type detection, header-aware
  sectioning, and chunk assembly.

Strings are modelled as `List Char` (Python `str` is a sequence of code
points).  Python regular expressions occurring in the code are compiled by
hand into deterministic scanners; each definition carries a comment citing
the original pattern and flags.  All patterns used by the code are
backtracking-free on the character classes involved (verified case by case),
so the hand compilation is exact.  Lines fed to the header classifier come
from `text.split('\n')` and therefore never contain `'\n'`; the compiled
line-level patterns assume newline-free input accordingly.
-/

namespace CBPortal

/-! ## Python string primitives -/

theorem dropWhileLenLe (p : Char → Bool) (l : List Char) :
    (l.dropWhile p).length ≤ l.length := by
  induction l with
  | nil => simp [List.dropWhile]
  | cons c cs ih =>
    by_cases h : p c
    · simp only [List.dropWhile, h]
      exact Nat.le_trans ih (by simp)
    · simp [List.dropWhile, h]

/-- Python whitespace for `str.strip` and the regex class `\s`
(ASCII part: space, tab, newline, carriage return, vertical tab, form feed).
Inputs in scope are ASCII, so the Unicode extras of Python never fire. -/
def isPySpace (c : Char) : Bool :=
  c = ' ' || c = '\t' || c = '\n' || c = '\r' || c = '\x0b' || c = '\x0c'

/-- ASCII letter (regex class `[a-zA-Z]`). -/
def isAsciiLetter (c : Char) : Bool :=
  ('a' ≤ c && c ≤ 'z') || ('A' ≤ c && c ≤ 'Z')

/-- ASCII uppercase letter (regex class `[A-Z]`, case-sensitive). -/
def isAsciiUpper (c : Char) : Bool := 'A' ≤ c && c ≤ 'Z'

/-- ASCII digit (regex class `\d`). -/
def isAsciiDigit (c : Char) : Bool := '0' ≤ c && c ≤ '9'

/-- Regex class `[a-zA-Z\s]` used by the header patterns. -/
def isLetterOrSpace (c : Char) : Bool := isAsciiLetter c || isPySpace c

/-- First character of a JS identifier: regex class `[a-zA-Z_$]`. -/
def isJsIdentStart (c : Char) : Bool := isAsciiLetter c || c = '_' || c = '$'

/-- Later character of a JS identifier: regex class `[a-zA-Z0-9_$]`. -/
def isJsIdentChar (c : Char) : Bool := isJsIdentStart c || isAsciiDigit c

/-- First character of the identifiers in the YAML-section patterns:
regex class `[a-zA-Z_]`. -/
def isWordStart (c : Char) : Bool := isAsciiLetter c || c = '_'

/-- Regex class `[a-zA-Z0-9_]` (ASCII part of `\w`). -/
def isWordChar (c : Char) : Bool := isWordStart c || isAsciiDigit c

/-- ASCII lower-casing, the effect of Python `str.lower` on ASCII input. -/
def lowerChar (c : Char) : Char :=
  if isAsciiUpper c then Char.ofNat (c.toNat + 32) else c

/-- Python `str.lower` (ASCII fragment). -/
def lowerL (l : List Char) : List Char := l.map lowerChar

/-- Drop trailing characters satisfying `p`. -/
def dropRightWhile (p : Char → Bool) (l : List Char) : List Char :=
  (l.reverse.dropWhile p).reverse

/-- Python `str.strip()`: remove leading and trailing whitespace. -/
def pyStrip (l : List Char) : List Char :=
  dropRightWhile isPySpace (l.dropWhile isPySpace)

/-- `l₁` is a literal prefix of `l₂`. -/
def startsWithL : List Char → List Char → Bool
  | [], _ => true
  | _ :: _, [] => false
  | a :: as, b :: bs => a = b && startsWithL as bs

/-- Substring test (Python `needle in hay`). -/
def containsSub (hay needle : List Char) : Bool :=
  match hay with
  | [] => startsWithL needle []
  | _ :: rest => startsWithL needle hay || containsSub rest needle

/-- Number of non-overlapping occurrences (Python `str.count`), scanning left
to right and skipping over each match. -/
def countSub : List Char → List Char → Nat
  | _, [] => 0
  | [], _ :: _ => 0
  | c :: rest, n :: ns =>
    if startsWithL (n :: ns) (c :: rest) then
      countSub ((c :: rest).drop (n :: ns).length) (n :: ns) + 1
    else countSub rest (n :: ns)
termination_by hay _ => hay.length
decreasing_by
  · simp only [List.length_drop, List.length_cons]
    omega
  · simp [List.length_cons]

/-- Python `text.split('\n')`. -/
def splitNL : List Char → List (List Char)
  | [] => [[]]
  | c :: rest =>
    if c = '\n' then [] :: splitNL rest
    else
      match splitNL rest with
      | r :: rs => (c :: r) :: rs
      | [] => [[c]]

/-- Python `'\n'.join(lines)`. -/
def joinNL : List (List Char) → List Char
  | [] => []
  | [l] => l
  | l :: ls => l ++ '\n' :: joinNL ls

/-- Python `str.split()` with no argument: split on whitespace runs,
discarding empty fields (used for `word_count`). -/
def pySplitWs : List Char → List (List Char)
  | [] => []
  | c :: rest =>
    if isPySpace c then pySplitWs rest
    else
      (c :: rest.takeWhile (fun d => !isPySpace d)) ::
        pySplitWs (rest.dropWhile (fun d => !isPySpace d))
termination_by l => l.length
decreasing_by
  · simp [List.length_cons]
  · simp only [List.length_cons]
    exact Nat.lt_succ_of_le (dropWhileLenLe _ _)

/-! ## `TextParser._extract_balanced_object` (text_parser.py, lines 420-464)

The Python routine walks the text from `start_pos` with a brace counter, an
in-string flag, a pending-escape flag and the delimiting quote character,
and returns `content[start_pos:current_pos+1]` once the counter returns to
zero.  `scanBalanced` mirrors the loop body exactly (same test order) and
returns the absolute index of the closing brace. -/

def scanBalanced : List Char → Nat → Int → Bool → Bool → Option Char → Option Nat
  | [], _, _, _, _, _ => none
  | c :: rest, pos, bc, inStr, esc, sc =>
    if esc then scanBalanced rest (pos + 1) bc inStr false sc
    else if c = '\\' then scanBalanced rest (pos + 1) bc inStr true sc
    else if !inStr then
      if c = '\x22' || c = '\x27' then scanBalanced rest (pos + 1) bc true esc (some c)
      else if c = '\x7b' then scanBalanced rest (pos + 1) (bc + 1) inStr esc sc
      else if c = '\x7d' then
        if bc - 1 = 0 then some pos
        else scanBalanced rest (pos + 1) (bc - 1) inStr esc sc
      else scanBalanced rest (pos + 1) bc inStr esc sc
    else
      if sc = some c then scanBalanced rest (pos + 1) bc false esc none
      else scanBalanced rest (pos + 1) bc inStr esc sc

/-- `_extract_balanced_object(content, start_pos)`: `None` when the
precondition fails or the scan runs off the end, otherwise the substring
from `start_pos` to the matching closing brace inclusive. -/
def extract_balanced_object (content : List Char) (start : Nat) : Option (List Char) :=
  if content.length ≤ start then none
  else if content.getD start ' ' ≠ '\x7b' then none
  else
    match scanBalanced (content.drop start) start 0 false false none with
    | some endPos => some ((content.drop start).take (endPos - start + 1))
    | none => none

/-! ### Independent depth-counting specification (for the C3/C8 claims)

The spec asks that the scanner's result be characterised by independent depth
counting that excludes braces inside string literals.  `StrState`/`strStep`
is the quote/escape state machine on its own; `braceDelta` gives the depth
contribution of one character in a given state; `depthAfter` sums the
contributions of a prefix. -/

structure StrState where
  inStr : Bool
  esc : Bool
  sc : Option Char
deriving DecidableEq, Repr

def strInit : StrState := ⟨false, false, none⟩

/-- One step of the quote/escape state machine (braces do not affect it). -/
def strStep (st : StrState) (c : Char) : StrState :=
  if st.esc then { st with esc := false }
  else if c = '\\' then { st with esc := true }
  else if !st.inStr then
    if c = '\x22' || c = '\x27' then ⟨true, st.esc, some c⟩ else st
  else
    if st.sc = some c then ⟨false, st.esc, none⟩ else st

/-- Depth contribution of character `c` read in state `st`: braces count only
outside strings, and never when escaped or when the character is the escape
character itself. -/
def braceDelta (st : StrState) (c : Char) : Int :=
  if st.esc then 0
  else if c = '\\' then 0
  else if st.inStr then 0
  else if c = '\x7b' then 1
  else if c = '\x7d' then -1
  else 0

/-- Brace depth accumulated after reading the first `n` characters of `cs`,
starting from state `st` with initial depth `d`. -/
def depthRun : List Char → StrState → Int → Nat → Int
  | _, _, d, 0 => d
  | [], _, d, _ + 1 => d
  | c :: cs, st, d, n + 1 => depthRun cs (strStep st c) (d + braceDelta st c) n

/-- Depth after the first `n` characters, from the initial state and depth 0. -/
def depthAfter (cs : List Char) (n : Nat) : Int := depthRun cs strInit 0 n

/-- Index of the first character at which the running depth returns to zero
(the reference semantics the scanner is compared with). -/
def firstZero : List Char → StrState → Int → Option Nat
  | [], _, _ => none
  | c :: cs, st, d =>
    if d + braceDelta st c = 0 then some 0
    else (firstZero cs (strStep st c) (d + braceDelta st c)).map (· + 1)

theorem depthRun_add (cs : List Char) (st : StrState) (d : Int) (n : Nat) :
    depthRun cs st d n = d + depthRun cs st 0 n := by
  induction cs generalizing st d n with
  | nil => cases n <;> simp [depthRun]
  | cons c cs ih =>
    cases n with
    | zero => simp [depthRun]
    | succ m =>
      simp only [depthRun]
      rw [ih _ (d + braceDelta st c), ih _ (0 + braceDelta st c)]
      ring

/-- The imperative scan of `_extract_balanced_object` agrees with the
reference `firstZero` search as long as the entry depth is positive (which
holds from the opening brace onwards). -/
theorem scanBalanced_eq_firstZero (cs : List Char) (pos : Nat) (bc : Int)
    (st : StrState) (hbc : 1 ≤ bc) :
    scanBalanced cs pos bc st.inStr st.esc st.sc =
      (firstZero cs st bc).map (pos + ·) := by
  induction cs generalizing pos bc st with
  | nil => simp [scanBalanced, firstZero]
  | cons c cs ih =>
    have hmap : ∀ (o : Option Nat),
        (o.map (· + 1)).map (pos + ·) = o.map ((pos + 1) + ·) := by
      intro o; cases o <;> simp [Option.map]; omega
    by_cases hesc : st.esc
    · -- escape pending: the character is consumed, depth unchanged
      have hδ : braceDelta st c = 0 := by simp [braceDelta, hesc]
      have h0 : ¬ (bc + braceDelta st c = 0) := by rw [hδ]; omega
      have hst : strStep st c = ⟨st.inStr, false, st.sc⟩ := by
        simp [strStep, hesc]
      rw [show scanBalanced (c :: cs) pos bc st.inStr st.esc st.sc =
            scanBalanced cs (pos + 1) bc st.inStr false st.sc by
          simp [scanBalanced, hesc]]
      rw [show firstZero (c :: cs) st bc =
            (firstZero cs (strStep st c) (bc + braceDelta st c)).map (· + 1) by
          simp [firstZero, h0]]
      rw [hmap, hδ, add_zero, hst]
      exact ih (pos + 1) bc ⟨st.inStr, false, st.sc⟩ hbc
    · by_cases hbs : c = '\\'
      · -- escape character: sets the pending-escape flag, depth unchanged
        have hδ : braceDelta st c = 0 := by simp [braceDelta, hesc, hbs]
        have h0 : ¬ (bc + braceDelta st c = 0) := by rw [hδ]; omega
        have hst : strStep st c = ⟨st.inStr, true, st.sc⟩ := by
          simp [strStep, hesc, hbs]
        rw [show scanBalanced (c :: cs) pos bc st.inStr st.esc st.sc =
              scanBalanced cs (pos + 1) bc st.inStr true st.sc by
            simp [scanBalanced, hesc, hbs]]
        rw [show firstZero (c :: cs) st bc =
              (firstZero cs (strStep st c) (bc + braceDelta st c)).map (· + 1) by
            simp [firstZero, h0]]
        rw [hmap, hδ, add_zero, hst]
        exact ih (pos + 1) bc ⟨st.inStr, true, st.sc⟩ hbc
      · by_cases hin : st.inStr
        · -- inside a string literal: only the closing delimiter matters
          have hδ : braceDelta st c = 0 := by simp [braceDelta, hesc, hbs, hin]
          have h0 : ¬ (bc + braceDelta st c = 0) := by rw [hδ]; omega
          by_cases hsc : st.sc = some c
          · have hst : strStep st c = ⟨false, st.esc, none⟩ := by
              simp [strStep, hesc, hbs, hin, hsc]
            rw [show scanBalanced (c :: cs) pos bc st.inStr st.esc st.sc =
                  scanBalanced cs (pos + 1) bc false st.esc none by
                simp [scanBalanced, hesc, hbs, hin, hsc]]
            rw [show firstZero (c :: cs) st bc =
                  (firstZero cs (strStep st c) (bc + braceDelta st c)).map (· + 1) by
                simp [firstZero, h0]]
            rw [hmap, hδ, add_zero, hst]
            exact ih (pos + 1) bc ⟨false, st.esc, none⟩ hbc
          · have hst : strStep st c = st := by
              simp [strStep, hesc, hbs, hin, hsc]
            rw [show scanBalanced (c :: cs) pos bc st.inStr st.esc st.sc =
                  scanBalanced cs (pos + 1) bc st.inStr st.esc st.sc by
                simp [scanBalanced, hesc, hbs, hin, hsc]]
            rw [show firstZero (c :: cs) st bc =
                  (firstZero cs (strStep st c) (bc + braceDelta st c)).map (· + 1) by
                simp [firstZero, h0]]
            rw [hmap, hδ, add_zero, hst]
            exact ih (pos + 1) bc st hbc
        · by_cases hq : c = '\x22' ∨ c = '\x27'
          · -- opening quote: enter string mode
            have hδ : braceDelta st c = 0 := by
              rcases hq with hq | hq <;> simp [braceDelta, hesc, hbs, hin, hq]
            have h0 : ¬ (bc + braceDelta st c = 0) := by rw [hδ]; omega
            have hst : strStep st c = ⟨true, st.esc, some c⟩ := by
              rcases hq with hq | hq <;> simp [strStep, hesc, hbs, hin, hq]
            rw [show scanBalanced (c :: cs) pos bc st.inStr st.esc st.sc =
                  scanBalanced cs (pos + 1) bc true st.esc (some c) by
                rcases hq with hq | hq <;> simp [scanBalanced, hesc, hbs, hin, hq]]
            rw [show firstZero (c :: cs) st bc =
                  (firstZero cs (strStep st c) (bc + braceDelta st c)).map (· + 1) by
                simp [firstZero, h0]]
            rw [hmap, hδ, add_zero, hst]
            exact ih (pos + 1) bc ⟨true, st.esc, some c⟩ hbc
          · push_neg at hq
            obtain ⟨hq1, hq2⟩ := hq
            by_cases hob : c = '\x7b'
            · -- opening brace outside strings: depth increases
              have hδ : braceDelta st c = 1 := by
                simp [braceDelta, hesc, hbs, hin, hob]
              have h0 : ¬ (bc + braceDelta st c = 0) := by rw [hδ]; omega
              have hst : strStep st c = st := by
                simp [strStep, hesc, hbs, hin, hq1, hq2]
              rw [show scanBalanced (c :: cs) pos bc st.inStr st.esc st.sc =
                    scanBalanced cs (pos + 1) (bc + 1) st.inStr st.esc st.sc by
                  simp [scanBalanced, hesc, hbs, hin, hq1, hq2, hob]]
              rw [show firstZero (c :: cs) st bc =
                    (firstZero cs (strStep st c) (bc + braceDelta st c)).map (· + 1) by
                  simp [firstZero, h0]]
              rw [hmap, hδ, hst]
              exact ih (pos + 1) (bc + 1) st (by omega)
            · by_cases hcb : c = '\x7d'
              · -- closing brace outside strings: depth decreases
                have hδ : braceDelta st c = -1 := by
                  simp [braceDelta, hesc, hbs, hin, hob, hcb]
                have hst : strStep st c = st := by
                  simp [strStep, hesc, hbs, hin, hq1, hq2]
                by_cases hz : bc - 1 = 0
                · rw [show scanBalanced (c :: cs) pos bc st.inStr st.esc st.sc =
                        some pos by
                      simp [scanBalanced, hesc, hbs, hin, hq1, hq2, hob, hcb, hz]]
                  rw [show firstZero (c :: cs) st bc = some 0 by
                      simp [firstZero, hδ]; omega]
                  simp [Option.map]
                · have h0 : ¬ (bc + braceDelta st c = 0) := by rw [hδ]; omega
                  rw [show scanBalanced (c :: cs) pos bc st.inStr st.esc st.sc =
                        scanBalanced cs (pos + 1) (bc - 1) st.inStr st.esc st.sc by
                      simp [scanBalanced, hesc, hbs, hin, hq1, hq2, hob, hcb, hz]]
                  rw [show firstZero (c :: cs) st bc =
                        (firstZero cs (strStep st c) (bc + braceDelta st c)).map (· + 1) by
                      simp [firstZero, h0]]
                  rw [hmap, hδ, hst, show bc + -1 = bc - 1 by ring]
                  exact ih (pos + 1) (bc - 1) st (by omega)
              · -- ordinary character outside strings
                have hδ : braceDelta st c = 0 := by
                  simp [braceDelta, hesc, hbs, hin, hob, hcb]
                have h0 : ¬ (bc + braceDelta st c = 0) := by rw [hδ]; omega
                have hst : strStep st c = st := by
                  simp [strStep, hesc, hbs, hin, hq1, hq2]
                rw [show scanBalanced (c :: cs) pos bc st.inStr st.esc st.sc =
                      scanBalanced cs (pos + 1) bc st.inStr st.esc st.sc by
                    simp [scanBalanced, hesc, hbs, hin, hq1, hq2, hob, hcb]]
                rw [show firstZero (c :: cs) st bc =
                      (firstZero cs (strStep st c) (bc + braceDelta st c)).map (· + 1) by
                    simp [firstZero, h0]]
                rw [hmap, hδ, add_zero, hst]
                exact ih (pos + 1) bc st hbc

/-- `firstZero` finds exactly the first prefix length at which the
accumulated depth cancels the entry depth. -/
theorem firstZero_some_iff (cs : List Char) (st : StrState) (d : Int) (k : Nat) :
    firstZero cs st d = some k ↔
      k < cs.length ∧ d + depthRun cs st 0 (k + 1) = 0 ∧
        ∀ j < k, d + depthRun cs st 0 (j + 1) ≠ 0 := by
  induction cs generalizing st d k with
  | nil => simp [firstZero]
  | cons c cs ih =>
    have hd1 : ∀ n, depthRun (c :: cs) st 0 (n + 1) =
        braceDelta st c + depthRun cs (strStep st c) 0 n := by
      intro n
      simp only [depthRun]
      rw [depthRun_add, zero_add]
    by_cases h0 : d + braceDelta st c = 0
    · rw [show firstZero (c :: cs) st d = some 0 by simp [firstZero, h0]]
      constructor
      · rintro h
        cases h
        refine ⟨by simp, ?_, by omega⟩
        rw [hd1 0]
        simpa [depthRun] using h0
      · rintro ⟨-, hz, hmin⟩
        rcases Nat.eq_zero_or_pos k with h | h
        · rw [h]
        · exfalso
          have := hmin 0 h
          rw [hd1 0] at this
          simp [depthRun] at this
          omega
    · rw [show firstZero (c :: cs) st d =
            (firstZero cs (strStep st c) (d + braceDelta st c)).map (· + 1) by
          simp [firstZero, h0]]
      constructor
      · intro h
        obtain ⟨k', hk', hkeq⟩ := Option.map_eq_some'.mp h
        obtain ⟨hlen, hz, hmin⟩ := (ih (strStep st c) (d + braceDelta st c) k').mp hk'
        subst hkeq
        refine ⟨by simpa using Nat.succ_lt_succ hlen, ?_, ?_⟩
        · rw [hd1 (k' + 1)]
          omega
        · intro j hj
          cases j with
          | zero =>
            rw [hd1 0]
            simpa [depthRun] using h0
          | succ j' =>
            rw [hd1 (j' + 1)]
            have := hmin j' (by omega)
            omega
      · rintro ⟨hlen, hz, hmin⟩
        cases k with
        | zero =>
          exfalso
          rw [hd1 0] at hz
          simp [depthRun] at hz
          omega
        | succ k' =>
          have hz' : (d + braceDelta st c) + depthRun cs (strStep st c) 0 (k' + 1) = 0 := by
            rw [hd1 (k' + 1)] at hz
            omega
          have hmin' : ∀ j < k', (d + braceDelta st c) + depthRun cs (strStep st c) 0 (j + 1) ≠ 0 := by
            intro j hj
            have := hmin (j + 1) (by omega)
            rw [hd1 (j + 1)] at this
            omega
          have := (ih (strStep st c) (d + braceDelta st c) k').mpr
            ⟨by simpa using Nat.lt_of_succ_lt_succ hlen, hz', hmin'⟩
          simp [this]

/-- When the scan enters with positive depth, the character at which the
depth first returns to zero is a closing brace (counted outside strings). -/
theorem firstZero_char (cs : List Char) (st : StrState) (d : Int) (k : Nat)
    (hd : 1 ≤ d) (h : firstZero cs st d = some k) : cs.getD k ' ' = '\x7d' := by
  induction cs generalizing st d k with
  | nil => simp [firstZero] at h
  | cons c cs ih =>
    by_cases h0 : d + braceDelta st c = 0
    · rw [show firstZero (c :: cs) st d = some 0 by simp [firstZero, h0]] at h
      cases h
      have hδ : braceDelta st c = -d := by omega
      have hneg : braceDelta st c < 0 := by omega
      simp only [braceDelta] at hneg
      split_ifs at hneg with e1 e2 e3 e4 e5
      · omega
      · omega
      · omega
      · omega
      · simp [e5]
      · omega
    · rw [show firstZero (c :: cs) st d =
            (firstZero cs (strStep st c) (d + braceDelta st c)).map (· + 1) by
          simp [firstZero, h0]] at h
      obtain ⟨k', hk', hkeq⟩ := Option.map_eq_some'.mp h
      have hdge : 1 ≤ d + braceDelta st c := by
        have : -1 ≤ braceDelta st c := by
          simp only [braceDelta]
          split_ifs <;> omega
        omega
      subst hkeq
      simpa using ih (strStep st c) (d + braceDelta st c) k' hdge hk'

/-- `firstZero` fails exactly when the depth never returns to zero. -/
theorem firstZero_none_iff (cs : List Char) (st : StrState) (d : Int) :
    firstZero cs st d = none ↔
      ∀ k < cs.length, d + depthRun cs st 0 (k + 1) ≠ 0 := by
  constructor
  · intro hnone k hk hz
    classical
    have hP : ∃ m, m < cs.length ∧ d + depthRun cs st 0 (m + 1) = 0 := ⟨k, hk, hz⟩
    have hspec := Nat.find_spec hP
    have hsome : firstZero cs st d = some (Nat.find hP) := by
      rw [firstZero_some_iff]
      refine ⟨hspec.1, hspec.2, ?_⟩
      intro j hj hzj
      exact Nat.find_min hP hj ⟨Nat.lt_trans hj hspec.1, hzj⟩
    rw [hsome] at hnone
    exact Option.noConfusion hnone
  · intro hall
    rcases h : firstZero cs st d with _ | k0
    · rfl
    · obtain ⟨hk, hz, -⟩ := (firstZero_some_iff cs st d k0).mp h
      exact absurd hz (hall k0 hk)

/-- Bridge: with the precondition satisfied, `_extract_balanced_object` is
the `firstZero` search on the suffix, packaged as a substring. -/
theorem extract_balanced_firstZero (content : List Char) (start : Nat)
    (h1 : start < content.length) (h2 : content.getD start ' ' = '\x7b') :
    extract_balanced_object content start =
      (firstZero (content.drop start) strInit 0).map
        (fun k => (content.drop start).take (k + 1)) := by
  have hget : content[start] = '\x7b' := by
    rw [← List.getD_eq_getElem content ' ' h1]; exact h2
  have hcons : content.drop start = '\x7b' :: content.drop (start + 1) := by
    rw [List.drop_eq_getElem_cons h1, hget]
  have hnle : ¬ content.length ≤ start := by omega
  have hne : ¬ content.getD start ' ' ≠ '\x7b' := by push_neg; exact h2
  rw [extract_balanced_object, if_neg hnle, if_neg hne, hcons]
  have hstep : scanBalanced ('\x7b' :: content.drop (start + 1)) start 0 false false none =
      scanBalanced (content.drop (start + 1)) (start + 1) 1 false false none := by
    simp [scanBalanced]
  have hfz : firstZero ('\x7b' :: content.drop (start + 1)) strInit 0 =
      (firstZero (content.drop (start + 1)) strInit 1).map (· + 1) := by
    have hδ : braceDelta strInit '\x7b' = 1 := by decide
    have hst : strStep strInit '\x7b' = strInit := by decide
    rw [firstZero, hδ, hst]
    norm_num
  rw [hstep, hfz,
    show scanBalanced (content.drop (start + 1)) (start + 1) 1 false false none =
        scanBalanced (content.drop (start + 1)) (start + 1) 1
          strInit.inStr strInit.esc strInit.sc from rfl,
    scanBalanced_eq_firstZero _ _ _ _ (by norm_num)]
  cases hcase : firstZero (content.drop (start + 1)) strInit 1 with
  | none => simp
  | some k' =>
    simp only [Option.map_some']
    have : start + 1 + k' - start + 1 = k' + 1 + 1 := by omega
    rw [this]

/-- The claim C3 hypotheses: `k` is the first index (within the suffix
starting at `start`) at which the independently-counted brace depth — string
literals excluded via the quote/escape state machine — returns to zero. -/
theorem claim_C3 (content : List Char) (start k : Nat)
    (h1 : start < content.length)
    (h2 : content.getD start ' ' = '\x7b')
    (hk : k < (content.drop start).length)
    (hzero : depthAfter (content.drop start) (k + 1) = 0)
    (hfirst : ∀ j < k, depthAfter (content.drop start) (j + 1) ≠ 0) :
    extract_balanced_object content start = some ((content.drop start).take (k + 1)) ∧
      content.getD (start + k) ' ' = '\x7d' := by
  have hsome : firstZero (content.drop start) strInit 0 = some k := by
    rw [firstZero_some_iff]
    refine ⟨hk, by simpa [depthAfter] using hzero, ?_⟩
    intro j hj
    simpa [depthAfter] using hfirst j hj
  constructor
  · rw [extract_balanced_firstZero content start h1 h2, hsome]
    rfl
  · -- the closing character: peel off the opening brace and use the
    -- positive-depth invariant
    have hget : content[start] = '\x7b' := by
      rw [← List.getD_eq_getElem content ' ' h1]; exact h2
    have hcons : content.drop start = '\x7b' :: content.drop (start + 1) := by
      rw [List.drop_eq_getElem_cons h1, hget]
    rw [hcons] at hsome
    have hδ : braceDelta strInit '\x7b' = 1 := by decide
    have hst : strStep strInit '\x7b' = strInit := by decide
    rw [firstZero, hδ, hst] at hsome
    rw [if_neg (by norm_num)] at hsome
    obtain ⟨k', hk', rfl⟩ := Option.map_eq_some'.mp hsome
    have hchar := firstZero_char _ _ _ _ (by norm_num) hk'
    have hlen : k' < (content.drop (start + 1)).length := by
      exact ((firstZero_some_iff _ _ _ _).mp hk').1
    have hlen2 : start + 1 + k' < content.length := by
      rw [List.length_drop] at hlen
      omega
    rw [List.getD_eq_getElem _ _ hlen] at hchar
    rw [List.getElem_drop] at hchar
    have hchar2 : content.getD (start + 1 + k') ' ' = '\x7d' := by
      rw [List.getD_eq_getElem _ _ hlen2]
      exact hchar
    rw [show start + (k' + 1) = start + 1 + k' from by omega]
    exact hchar2

def c3ex : List Char := "\x7b\"a\": \"\x7bnot a brace\x7d\"\x7d".data

/-- Witness for C3 at the spec's own example `\x7b"a": "\x7bnot a brace\x7d"\x7d`:
the scanner returns the full outer span (all 22 characters), not a span
stopping at the inner closing brace. -/
theorem claim_C3_witness :
    extract_balanced_object c3ex 0 = some c3ex ∧ c3ex.getD 21 ' ' = '\x7d' := by
  have h := claim_C3 c3ex 0 21 (by decide) (by decide) (by decide) (by decide)
    (by decide)
  refine ⟨?_, h.2⟩
  rw [h.1]
  decide

/-- Number of unescaped brace characters of a string: braces are counted
except when consumed by a preceding escape character.  (Modelled from the
spec's wording for the truncated-object claim.) -/
def countUnescBraces : List Char → Bool → Nat
  | [], _ => 0
  | c :: cs, escNext =>
    if escNext then countUnescBraces cs false
    else if c = '\\' then countUnescBraces cs true
    else if c = '\x7b' || c = '\x7d' then countUnescBraces cs false + 1
    else countUnescBraces cs false

/-- Counterexample to C8 as stated: the string `\x7b\x7d\x7d` contains an odd
number (three) of unescaped braces, yet the scanner invoked at its opening
brace returns a match (the span `\x7b\x7d`), not "no match". -/
theorem claim_C8_counterexample :
    countUnescBraces "\x7b\x7d\x7d".data false % 2 = 1 ∧
      "\x7b\x7d\x7d".data.getD 0 ' ' = '\x7b' ∧
      extract_balanced_object "\x7b\x7d\x7d".data 0 = some "\x7b\x7d".data := by
  decide

/-- C8 (amended): whenever the stream ends before the brace depth returns to
zero, the scanner returns `None` — never a partial span. -/
theorem claim_C8 (content : List Char) (start : Nat)
    (h1 : start < content.length)
    (h2 : content.getD start ' ' = '\x7b')
    (hnever : ∀ k < (content.drop start).length,
      depthAfter (content.drop start) (k + 1) ≠ 0) :
    extract_balanced_object content start = none := by
  rw [extract_balanced_firstZero content start h1 h2]
  rw [(firstZero_none_iff _ _ _).mpr ?_]
  · rfl
  · intro k hk
    simpa [depthAfter] using hnever k hk

def c8trunc : List Char := "\x7b\"a\": \x7b".data

/-- Witness for the amended C8 at the truncated object `\x7b"a": \x7b`. -/
theorem claim_C8_witness : extract_balanced_object c8trunc 0 = none :=
  claim_C8 c8trunc 0 (by decide) (by decide) (by decide)

/-- C10: when the precondition is violated — start position at or past the
end, or the character there is not an opening brace — the scanner returns
`None`.  (The embedding is a total function over `List Char`, so no
out-of-bounds read or exception is possible by construction.) -/
theorem claim_C10 (content : List Char) (start : Nat)
    (h : content.length ≤ start ∨ content.getD start ' ' ≠ '\x7b') :
    extract_balanced_object content start = none := by
  rcases h with h | h
  · rw [extract_balanced_object, if_pos h]
  · by_cases hlen : content.length ≤ start
    · rw [extract_balanced_object, if_pos hlen]
    · rw [extract_balanced_object, if_neg hlen, if_pos h]

/-- Witness for C10: one out-of-range start, one start not at a brace. -/
theorem claim_C10_witness :
    extract_balanced_object "ab".data 5 = none ∧
      extract_balanced_object "xy".data 0 = none :=
  ⟨claim_C10 "ab".data 5 (Or.inl (by decide)),
   claim_C10 "xy".data 0 (Or.inr (by decide))⟩

/-! ## Parsed JSON values (the result type of Python `json.loads`)

Numbers are carried exactly as rationals; `NaN`/`Infinity`, which Python's
parser also accepts, get their own constructors.  Python `dict`s are
modelled as association lists in insertion order (the parser below updates
an existing key in place, as `dict.__setitem__` does). -/

inductive JValue where
  | jnull : JValue
  | jbool : Bool → JValue
  | jnum : ℚ → JValue
  | jnan : JValue
  | jinf : Bool → JValue
  | jstr : List Char → JValue
  | jarr : List JValue → JValue
  | jobj : List (List Char × JValue) → JValue

/-- Python `key in d` for the association-list model. -/
def pyDictMem (k : List Char) (kvs : List (List Char × JValue)) : Bool :=
  kvs.any (fun p => p.1 = k)

/-- Python `d.get(key)` (first binding wins, as keys are unique in a dict). -/
def pyDictGet (k : List Char) : List (List Char × JValue) → Option JValue
  | [] => none
  | (k', v) :: rest => if k' = k then some v else pyDictGet k rest

/-! ### Parsing (model of Python `json.loads`)

Faithful to CPython's pure-Python decoder in strict mode: JSON whitespace is
space/tab/newline/carriage-return; strings reject unescaped control
characters; `NaN`, `Infinity` and `-Infinity` are accepted; object keys
repeat by updating the existing entry in place.  A lone `\uXXXX` escape is
mapped through `Char.ofNat` (surrogate pairing is not modelled; no input in
this development contains `\u` escapes). -/

def isJsonWs (c : Char) : Bool := c = ' ' || c = '\t' || c = '\n' || c = '\r'

def skipWs (l : List Char) : List Char := l.dropWhile isJsonWs

def hexVal (c : Char) : Option Nat :=
  let n := c.toNat
  if 48 ≤ n ∧ n ≤ 57 then some (n - 48)
  else if 97 ≤ n ∧ n ≤ 102 then some (n - 87)
  else if 65 ≤ n ∧ n ≤ 70 then some (n - 55)
  else none

/-- JSON string body (after the opening quote), strict mode. -/
def parseJStr : Nat → List Char → Option (List Char × List Char)
  | 0, _ => none
  | _ + 1, [] => none
  | fuel + 1, c :: rest =>
    if c = '\x22' then some ([], rest)
    else if c = '\\' then
      match rest with
      | [] => none
      | e :: rest2 =>
        if e = 'u' then
          match rest2 with
          | h1 :: h2 :: h3 :: h4 :: rest3 =>
            match hexVal h1, hexVal h2, hexVal h3, hexVal h4 with
            | some a, some b, some c2, some d =>
              (parseJStr fuel rest3).map
                (fun p => (Char.ofNat (((a * 16 + b) * 16 + c2) * 16 + d) :: p.1, p.2))
            | _, _, _, _ => none
          | _ => none
        else
          match
            (if e = '\x22' then some '\x22'
             else if e = '\\' then some '\\'
             else if e = '/' then some '/'
             else if e = 'b' then some '\x08'
             else if e = 'f' then some '\x0c'
             else if e = 'n' then some '\n'
             else if e = 'r' then some '\r'
             else if e = 't' then some '\t'
             else none) with
          | some ch => (parseJStr fuel rest2).map (fun p => (ch :: p.1, p.2))
          | none => none
    else if c.toNat < 32 then none
    else (parseJStr fuel rest).map (fun p => (c :: p.1, p.2))

/-- Digit run folded into a natural number. -/
def natOfDigits (ds : List Char) : Nat :=
  ds.foldl (fun acc d => 10 * acc + (d.toNat - 48)) 0

/-- Optional fraction group `(\.\d+)?`: its exact value (0 when absent) and
the remaining input (unchanged when the group does not match). -/
def parseFrac (l : List Char) : ℚ × List Char :=
  match l with
  | '.' :: r =>
    let ds := r.takeWhile isAsciiDigit
    if ds.length = 0 then (0, l)
    else ((natOfDigits ds : ℚ) / (10 : ℚ) ^ ds.length, r.drop ds.length)
  | _ => (0, l)

/-- Optional exponent group `([eE][-+]?\d+)?`: the signed exponent (0 when
absent) and the remaining input. -/
def parseExp (l : List Char) : Int × List Char :=
  match l with
  | e :: r =>
    if e = 'e' || e = 'E' then
      let sr : Int × List Char :=
        match r with
        | '+' :: t => (1, t)
        | '-' :: t => (-1, t)
        | _ => (1, r)
      let ds := sr.2.takeWhile isAsciiDigit
      if ds.length = 0 then (0, l)
      else (sr.1 * (natOfDigits ds : Int), sr.2.drop ds.length)
    else (0, l)
  | [] => (0, l)

/-- JSON number per the decoder's `NUMBER_RE`:
`(-?(?:0|[1-9]\d*))(\.\d+)?([eE][-+]?\d+)?`, as an exact rational. -/
def parseNum (l : List Char) : Option (ℚ × List Char) :=
  let signNeg := l.headD ' ' = '-'
  let l1 := if signNeg then l.drop 1 else l
  let c := l1.headD ' '
  if !isAsciiDigit c then none
  else
    let ir : Nat × List Char :=
      if c = '0' then (0, l1.drop 1)
      else (natOfDigits (l1.takeWhile isAsciiDigit), l1.dropWhile isAsciiDigit)
    let fr := parseFrac ir.2
    let er := parseExp fr.2
    let mag : ℚ := ((ir.1 : ℚ) + fr.1) *
      (if 0 ≤ er.1 then (10 : ℚ) ^ er.1.toNat else 1 / (10 : ℚ) ^ (-er.1).toNat)
    some (if signNeg then -mag else mag, er.2)

/-- `d[k] = v` on the association-list model of a Python dict: update in
place if present (keeping the original position), else append. -/
def insertUpd (k : List Char) (v : JValue) :
    List (List Char × JValue) → List (List Char × JValue)
  | [] => [(k, v)]
  | (k', v') :: rest =>
    if k' = k then (k', v) :: rest else (k', v') :: insertUpd k v rest

mutual

/-- One JSON value, positioned at its first character. -/
def parseVal : Nat → List Char → Option (JValue × List Char)
  | 0, _ => none
  | _ + 1, [] => none
  | fuel + 1, c :: rest =>
    if c = '\x22' then
      (parseJStr (rest.length + 1) rest).map (fun p => (JValue.jstr p.1, p.2))
    else if c = '\x7b' then
      match skipWs rest with
      | '\x7d' :: r => some (JValue.jobj [], r)
      | l2 => parseObjBody fuel l2 []
    else if c = '[' then
      match skipWs rest with
      | ']' :: r => some (JValue.jarr [], r)
      | l2 => parseArrBody fuel l2 []
    else if startsWithL "null".data (c :: rest) then
      some (JValue.jnull, (c :: rest).drop 4)
    else if startsWithL "true".data (c :: rest) then
      some (JValue.jbool true, (c :: rest).drop 4)
    else if startsWithL "false".data (c :: rest) then
      some (JValue.jbool false, (c :: rest).drop 5)
    else
      match parseNum (c :: rest) with
      | some p => some (JValue.jnum p.1, p.2)
      | none =>
        if startsWithL "NaN".data (c :: rest) then
          some (JValue.jnan, (c :: rest).drop 3)
        else if startsWithL "Infinity".data (c :: rest) then
          some (JValue.jinf false, (c :: rest).drop 8)
        else if startsWithL "-Infinity".data (c :: rest) then
          some (JValue.jinf true, (c :: rest).drop 9)
        else none

/-- Object members, positioned at a key. -/
def parseObjBody (fuel : Nat) (l : List Char) (acc : List (List Char × JValue)) :
    Option (JValue × List Char) :=
  match fuel with
  | 0 => none
  | fuel + 1 =>
    match l with
    | '\x22' :: rest =>
      match parseJStr (rest.length + 1) rest with
      | none => none
      | some (k, r1) =>
        match skipWs r1 with
        | ':' :: r2 =>
          match parseVal fuel (skipWs r2) with
          | none => none
          | some (v, r3) =>
            match skipWs r3 with
            | ',' :: r4 => parseObjBody fuel (skipWs r4) (insertUpd k v acc)
            | '\x7d' :: r4 => some (JValue.jobj (insertUpd k v acc), r4)
            | _ => none
        | _ => none
    | _ => none

/-- Array elements, positioned at an element. -/
def parseArrBody (fuel : Nat) (l : List Char) (acc : List JValue) :
    Option (JValue × List Char) :=
  match fuel with
  | 0 => none
  | fuel + 1 =>
    match parseVal fuel l with
    | none => none
    | some (v, r1) =>
      match skipWs r1 with
      | ',' :: r2 => parseArrBody fuel (skipWs r2) (acc ++ [v])
      | ']' :: r2 => some (JValue.jarr (acc ++ [v]), r2)
      | _ => none

end

/-- Python `json.loads`: a single value with only whitespace around it. -/
def jsonParse (l : List Char) : Option JValue :=
  match parseVal (2 * l.length + 8) (skipWs l) with
  | some (v, rest) => if skipWs rest = [] then some v else none
  | none => none

/-! ## `TextParser._is_valid_openapi_spec` (text_parser.py, lines 580-605) -/

/-- `spec_obj.get(key, '')` followed by `isinstance(..., str)` and
`startswith(prefixes)`: true iff the key's value is a string starting with
one of the given prefixes (an absent key defaults to `''`, which is a string
but matches no prefix). -/
def strFieldStartsWith (kvs : List (List Char × JValue)) (k : List Char)
    (prefixes : List (List Char)) : Bool :=
  match pyDictGet k kvs with
  | some (JValue.jstr s) => prefixes.any (fun p => startsWithL p s)
  | some _ => false
  | none => prefixes.any (fun p => startsWithL p [])

/-- `_is_valid_openapi_spec(spec_obj)`. -/
def is_valid_openapi_spec : JValue → Bool
  | JValue.jobj kvs =>
    if !(pyDictMem "openapi".data kvs && pyDictMem "info".data kvs) then
      -- required OpenAPI fields missing: Swagger 2.0 escape hatch
      -- (note: the code does not inspect the swagger version here)
      pyDictMem "swagger".data kvs && pyDictMem "info".data kvs
    else
      strFieldStartsWith kvs "openapi".data ["2.".data, "3.".data] ||
        strFieldStartsWith kvs "swagger".data ["2.".data]
  | _ => false

/-- The validator rule exactly as the C2 claim states it (spec wording):
accept iff mapping and either (a) `swagger` present with a value starting
with "2." and `info` present, or (b) both `openapi` and `info` present and
the `openapi` value starts with "2." or "3.". -/
def specValidClaimC2 : JValue → Bool
  | JValue.jobj kvs =>
    (pyDictMem "swagger".data kvs &&
      strFieldStartsWith kvs "swagger".data ["2.".data] &&
      pyDictMem "info".data kvs) ||
    (pyDictMem "openapi".data kvs && pyDictMem "info".data kvs &&
      strFieldStartsWith kvs "openapi".data ["2.".data, "3.".data])
  | _ => false

/-- The validator rule as the code actually implements it (the amended C2):
accept iff mapping and either (a) `openapi` and `info` are not both present
but `swagger` and `info` both are — the swagger value is not examined — or
(b) `openapi` and `info` are both present and the `openapi` value is a
string starting with "2." or "3.", or the `swagger` value is a string
starting with "2.". -/
def validAmendedC2 : JValue → Bool
  | JValue.jobj kvs =>
    (!(pyDictMem "openapi".data kvs && pyDictMem "info".data kvs) &&
      (pyDictMem "swagger".data kvs && pyDictMem "info".data kvs)) ||
    (pyDictMem "openapi".data kvs && pyDictMem "info".data kvs &&
      (strFieldStartsWith kvs "openapi".data ["2.".data, "3.".data] ||
        strFieldStartsWith kvs "swagger".data ["2.".data]))
  | _ => false

/-- Counterexample to C2 as stated: `\x7b"swagger": "1.0", "info": \x7b\x7d\x7d`
is accepted by the code (the missing-`openapi` branch never checks the
swagger version), while the claimed rule rejects it. -/
theorem claim_C2_counterexample :
    is_valid_openapi_spec
        (JValue.jobj [("swagger".data, JValue.jstr "1.0".data),
                      ("info".data, JValue.jobj [])]) = true ∧
      specValidClaimC2
        (JValue.jobj [("swagger".data, JValue.jstr "1.0".data),
                      ("info".data, JValue.jobj [])]) = false := by
  decide

/-- C2 (amended): the validator accepts exactly the objects described by
`validAmendedC2`; in particular it accepts
`\x7b"openapi": "3.0.0", "info": \x7b"title": "X"\x7d\x7d`, rejects
`\x7b"openapi": "1.0", "info": \x7b\x7d\x7d` and rejects
`\x7b"info": \x7b"title": "X"\x7d\x7d`. -/
theorem claim_C2 :
    (∀ v : JValue, is_valid_openapi_spec v = validAmendedC2 v) ∧
      is_valid_openapi_spec
        (JValue.jobj [("openapi".data, JValue.jstr "3.0.0".data),
          ("info".data, JValue.jobj [("title".data, JValue.jstr "X".data)])]) = true ∧
      is_valid_openapi_spec
        (JValue.jobj [("openapi".data, JValue.jstr "1.0".data),
          ("info".data, JValue.jobj [])]) = false ∧
      is_valid_openapi_spec
        (JValue.jobj [("info".data,
          JValue.jobj [("title".data, JValue.jstr "X".data)])]) = false := by
  refine ⟨?_, by decide, by decide, by decide⟩
  intro v
  cases v with
  | jobj kvs =>
    simp only [is_valid_openapi_spec, validAmendedC2]
    cases pyDictMem "openapi".data kvs && pyDictMem "info".data kvs <;> simp
  | jnull => rfl
  | jbool b => rfl
  | jnum q => rfl
  | jnan => rfl
  | jinf b => rfl
  | jstr s => rfl
  | jarr xs => rfl

/-! ## `TextParser._js_to_json` and `_fix_quotes` (text_parser.py, 466-523)

Each `re.sub` of the Python code is compiled to a matcher `try…` that
attempts the pattern at the current position (returning the replacement text
and the input remaining after the match) plus the generic left-to-right
driver `subDriver`.  All the patterns involved are deterministic: every
greedy or lazy sub-expression is bounded by a character class disjoint from
what follows, so backtracking never changes the outcome, and no pattern can
match the empty string. -/

/-- `re.sub` driver: at each position apply the match or copy one character;
scanning resumes after a match.  The fuel is the length of the input (every
match consumes at least one input character). -/
def subDriver (try1 : List Char → Option (List Char × List Char)) :
    Nat → List Char → List Char
  | 0, l => l
  | _ + 1, [] => []
  | fuel + 1, c :: cs =>
    match try1 (c :: cs) with
    | some (rep, rest) => rep ++ subDriver try1 fuel rest
    | none => c :: subDriver try1 fuel cs

/-- `re.sub` driver for a `re.MULTILINE`-anchored pattern (`^…`): a match is
attempted only at the start of the input or right after a newline.  The
patterns used with it end in `:`, so the position after a match is never a
line start. -/
def subDriverLS (try1 : List Char → Option (List Char × List Char)) :
    Nat → List Char → Bool → List Char
  | 0, l, _ => l
  | _ + 1, [], _ => []
  | fuel + 1, c :: cs, atLS =>
    if atLS then
      match try1 (c :: cs) with
      | some (rep, rest) => rep ++ subDriverLS try1 fuel rest false
      | none => c :: subDriverLS try1 fuel cs (c == '\n')
    else c :: subDriverLS try1 fuel cs (c == '\n')

/-- `//.*?$` with `re.MULTILINE`: from `//` to the end of the line
(exclusive of the newline), replaced by nothing. -/
def tryLineComment : List Char → Option (List Char × List Char)
  | '/' :: '/' :: ds => some ([], ds.dropWhile (fun x => x ≠ '\n'))
  | _ => none

/-- Suffix after the first occurrence of the two-character close `*/`. -/
def findCloseBC : List Char → Option (List Char)
  | [] => none
  | '*' :: '/' :: rest => some rest
  | _ :: rest => findCloseBC rest

/-- `/\*.*?\*/` with `re.DOTALL`: from `/*` to the first `*/`, replaced by
nothing; a `/*` without a later `*/` matches nowhere. -/
def tryBlockComment : List Char → Option (List Char × List Char)
  | '/' :: '*' :: ds => (findCloseBC ds).map (fun rest => ([], rest))
  | _ => none

/-- `_fix_quotes` state machine: convert single-quote delimiters to double
quotes, preserving quotes inside an already-quoted region; a backslash
copies itself and the following character verbatim. -/
def fixQuotesAux : List Char → Bool → Bool → List Char
  | [], _, _ => []
  | c :: rest, inD, inS =>
    if c = '\\' then
      match rest with
      | [] => [c]
      | d :: ds => c :: d :: fixQuotesAux ds inD inS
    else if c = '\x22' then
      if inS then c :: fixQuotesAux rest inD inS
      else c :: fixQuotesAux rest (!inD) inS
    else if c = '\x27' then
      if inD then c :: fixQuotesAux rest inD inS
      else '\x22' :: fixQuotesAux rest inD (!inS)
    else c :: fixQuotesAux rest inD inS

def fix_quotes (l : List Char) : List Char := fixQuotesAux l false false

/-- `([<cls>]\s*)([a-zA-Z_$][a-zA-Z0-9_$]*)\s*:` replaced by `\1"\2":`,
where `<cls>` is `[{\s,]` in `_js_to_json` and `[{\[\s,]` in the aggressive
cleanup.  The whitespace between identifier and colon is dropped by the
replacement. -/
def tryKey (cls : Char → Bool) (l : List Char) : Option (List Char × List Char) :=
  match l with
  | [] => none
  | c0 :: rest =>
    if !cls c0 then none
    else
      let ws1 := rest.takeWhile isPySpace
      let r1 := rest.drop ws1.length
      match r1 with
      | [] => none
      | i0 :: _ =>
        if !isJsIdentStart i0 then none
        else
          let idt := r1.takeWhile isJsIdentChar
          let r2 := (r1.drop idt.length).dropWhile isPySpace
          match r2 with
          | ':' :: r3 =>
            some (c0 :: ws1 ++ '\x22' :: idt ++ "\x22:".data, r3)
          | _ => none

/-- The character class `[{\s,]` of the first key-quoting pass. -/
def clsKey1 (c : Char) : Bool := c = '\x7b' || isPySpace c || c = ','

/-- The character class `[{\[\s,]` of the aggressive-cleanup passes. -/
def clsKeyUltra (c : Char) : Bool := c = '\x7b' || c = '[' || isPySpace c || c = ','

/-- `^(\s*)([a-zA-Z_$][a-zA-Z0-9_$]*)\s*:` (MULTILINE) replaced by
`\1"\2":`; note that the leading `\s*` may cross line boundaries. -/
def tryKeyLine (l : List Char) : Option (List Char × List Char) :=
  let ws1 := l.takeWhile isPySpace
  let r1 := l.drop ws1.length
  match r1 with
  | [] => none
  | i0 :: _ =>
    if !isJsIdentStart i0 then none
    else
      let idt := r1.takeWhile isJsIdentChar
      let r2 := (r1.drop idt.length).dropWhile isPySpace
      match r2 with
      | ':' :: r3 => some (ws1 ++ '\x22' :: idt ++ "\x22:".data, r3)
      | _ => none

/-- `,(\s*[}\]])` replaced by `\1`: a trailing comma before a closing
bracket disappears. -/
def tryTrailComma (l : List Char) : Option (List Char × List Char) :=
  match l with
  | ',' :: rest =>
    let ws := rest.takeWhile isPySpace
    match rest.drop ws.length with
    | b :: r2 => if b = '\x7d' || b = ']' then some (ws ++ [b], r2) else none
    | [] => none
  | _ => none

/-- `_js_to_json(js_obj_str)`: comments out, quotes normalised, bare keys
quoted (position- and line-anchored passes), trailing commas removed. -/
def js_to_json (l : List Char) : List Char :=
  let s1 := subDriver tryLineComment l.length l
  let s2 := subDriver tryBlockComment s1.length s1
  let s3 := fix_quotes s2
  let s4 := subDriver (tryKey clsKey1) s3.length s3
  let s5 := subDriverLS tryKeyLine s4.length s4 true
  subDriver tryTrailComma s5.length s5

/-! ## `TextParser._ultra_aggressive_cleanup` (text_parser.py, 525-560) -/

/-- `\s*:\s*` replaced by `': '` (colon normalisation). -/
def tryColonNorm (l : List Char) : Option (List Char × List Char) :=
  let ws := l.takeWhile isPySpace
  match l.drop ws.length with
  | ':' :: r => some (": ".data, r.dropWhile isPySpace)
  | _ => none

/-- `\s*,\s*` replaced by `', '` (comma normalisation). -/
def tryCommaNorm (l : List Char) : Option (List Char × List Char) :=
  let ws := l.takeWhile isPySpace
  match l.drop ws.length with
  | ',' :: r => some (", ".data, r.dropWhile isPySpace)
  | _ => none

/-- `\n\s*\n` replaced by `'\n'`: a newline, then (greedily, backtracking to
the last newline of the whitespace run) everything up to a final newline. -/
def tryEmptyLines (l : List Char) : Option (List Char × List Char) :=
  match l with
  | '\n' :: rest =>
    let ws := rest.takeWhile isPySpace
    match (ws.reverse.findIdx? (fun c => c = '\n')) with
    | some i => some (['\n'], rest.drop (ws.length - i))
    | none => none
  | _ => none

/-- `\s+` replaced by `' '`. -/
def tryWsCollapse (l : List Char) : Option (List Char × List Char) :=
  match l with
  | c :: _ =>
    if isPySpace c then some ([' '], l.dropWhile isPySpace) else none
  | [] => none

/-- The control-character filter: keep code points ≥ 32 and the standard
whitespace characters. -/
def controlFilter (l : List Char) : List Char :=
  l.filter (fun c => 32 ≤ c.toNat || c = '\n' || c = '\r' || c = '\t' || c = ' ')

/-- One iteration of the key-quoting loop (`for _ in range(3)`). -/
def ultraKeyPass (l : List Char) : List Char :=
  let a := subDriver (tryKey clsKeyUltra) l.length l
  subDriverLS tryKeyLine a.length a true

/-- `_ultra_aggressive_cleanup(js_str)`. -/
def ultra_aggressive_cleanup (l : List Char) : List Char :=
  let s1 := subDriver tryLineComment l.length l
  let s2 := subDriver tryBlockComment s1.length s1
  let s3 := controlFilter s2
  let s4 := s3.map (fun c => if c = '\x27' then '\x22' else c)
  let s5 := ultraKeyPass (ultraKeyPass (ultraKeyPass s4))
  let s6 := subDriver tryTrailComma s5.length s5
  let s7 := subDriver tryColonNorm s6.length s6
  let s8 := subDriver tryCommaNorm s7.length s7
  let s9 := subDriver tryEmptyLines s8.length s8
  let s10 := subDriver tryWsCollapse s9.length s9
  pyStrip s10

/-! ## `TextParser._extract_with_balanced_braces` (text_parser.py, 228-275) -/

/-- Case-insensitive literal prefix test (`re.IGNORECASE`, ASCII). -/
def startsWithCI : List Char → List Char → Bool
  | [], _ => true
  | _ :: _, [] => false
  | a :: as, b :: bs => lowerChar a = lowerChar b && startsWithCI as bs

/-- `(?:const|let|var)\s+openApiSpec\s*=\s*` (IGNORECASE) attempted at the
current position; returns the number of characters matched. -/
def tryAnchor1 (s : List Char) : Option Nat :=
  let kw : Option Nat :=
    if startsWithCI "const".data s then some 5
    else if startsWithCI "let".data s then some 3
    else if startsWithCI "var".data s then some 3
    else none
  match kw with
  | none => none
  | some k =>
    let r1 := s.drop k
    let ws := r1.takeWhile isPySpace
    if ws.length = 0 then none
    else
      let r2 := r1.drop ws.length
      if !startsWithCI "openapispec".data r2 then none
      else
        match (r2.drop 11).dropWhile isPySpace with
        | '=' :: r4 => some (s.length - (r4.dropWhile isPySpace).length)
        | _ => none

/-- `openApiSpec\s*[:\=]\s*` (IGNORECASE). -/
def tryAnchor2 (s : List Char) : Option Nat :=
  if !startsWithCI "openapispec".data s then none
  else
    match (s.drop 11).dropWhile isPySpace with
    | c :: r =>
      if c = ':' || c = '=' then some (s.length - (r.dropWhile isPySpace).length)
      else none
    | [] => none

/-- `spec:\s*` (IGNORECASE). -/
def tryAnchor3 (s : List Char) : Option Nat :=
  if !startsWithCI "spec:".data s then none
  else some (s.length - ((s.drop 5).dropWhile isPySpace).length)

/-- `re.search`: leftmost match; returns `match.end()`. -/
def searchEndAux (try1 : List Char → Option Nat) : List Char → Nat → Option Nat
  | [], pos => (try1 []).map (pos + ·)
  | l@(_ :: rest), pos =>
    match try1 l with
    | some k => some (pos + k)
    | none => searchEndAux try1 rest (pos + 1)

def searchEnd (try1 : List Char → Option Nat) (l : List Char) : Option Nat :=
  searchEndAux try1 l 0

/-- The `while start_pos < len and js_content[start_pos] != '\x7b'` loop:
advance to the next opening brace. -/
def findBraceFrom (content : List Char) (p : Nat) : Nat :=
  p + ((content.drop p).takeWhile (fun c => c ≠ '\x7b')).length

/-- The body of one loop iteration of `_extract_with_balanced_braces` after
its anchor matched: locate the brace, extract the balanced object, convert
and parse (with the aggressive fallback), and validate.  Every failure mode
yields `none`, which sends the Python loop to the next pattern. -/
def tryCandidate (js : List Char) (anchorEnd : Nat) : Option JValue :=
  let start := findBraceFrom js anchorEnd
  if js.length ≤ start then none
  else
    match extract_balanced_object js start with
    | none => none
    | some objStr =>
      match jsonParse (js_to_json objStr) with
      | some v => if is_valid_openapi_spec v then some v else none
      | none =>
        match jsonParse (ultra_aggressive_cleanup objStr) with
        | some v => if is_valid_openapi_spec v then some v else none
        | none => none

/-- `_extract_with_balanced_braces(js_content)`: the three anchor patterns
in order, first success wins. -/
def extract_with_balanced_braces (js : List Char) : Option JValue :=
  match (searchEnd tryAnchor1 js).bind (tryCandidate js) with
  | some v => some v
  | none =>
    match (searchEnd tryAnchor2 js).bind (tryCandidate js) with
    | some v => some v
    | none => (searchEnd tryAnchor3 js).bind (tryCandidate js)

/-! ## Claims C1 and C7 -/

/-- The raw JS fragment of the spec's end-to-end scenario:
`const openApiSpec = \x7bopenapi: \x273.0.0\x27, info: \x7btitle: \x27Orders
API\x27, version: \x271.0\x27\x7d, servers: [\x7burl:
\x27https://api.example.com\x27\x7d]\x7d;`. -/
def c1frag : List Char :=
  ("const openApiSpec = \x7bopenapi: \x273.0.0\x27, info: \x7btitle: " ++
   "\x27Orders API\x27, version: \x271.0\x27\x7d, servers: [\x7burl: " ++
   "\x27https://api.example.com\x27\x7d]\x7d;").data

set_option maxRecDepth 40000 in
/-- C1: the pipeline (anchor location, balanced-brace extraction, JS-to-JSON
conversion, JSON parsing with the aggressive fallback, validation) returns
no specification at all on the spec's mandated example — not the expected
parsed object.  The slip: `_js_to_json` and `_ultra_aggressive_cleanup`
strip `//.*?$` line comments before any quote handling, so the `//` of
`https://api.example.com` inside a string literal wipes out the rest of the
line and leaves an unterminated string that no later pass can repair. -/
theorem claim_C1 : extract_with_balanced_braces c1frag = none := rfl

/-- A valid JSON object string containing a URL. -/
def c7url : List Char := "\x7b\"url\": \"https://x\"\x7d".data

/-- A valid JSON object string with `,\x7d` inside a string literal. -/
def c7comma : List Char := "\x7b\"a\": \",\x7d\"\x7d".data

/-- Counterexample to C7 as stated: on the valid JSON object
`\x7b"url": "https://x"\x7d` the conversion output no longer parses
(the comment stripper truncates the string at `//`); and on
`\x7b"a": ",\x7d"\x7d` the output parses to a different structure (the
trailing-comma rewrite fires inside the string literal, turning the value
`,\x7d` into `\x7d`). -/
theorem claim_C7_counterexample :
    jsonParse c7url = some (JValue.jobj [("url".data, JValue.jstr "https://x".data)]) ∧
      jsonParse (js_to_json c7url) = none ∧
      jsonParse c7comma = some (JValue.jobj [("a".data, JValue.jstr ",\x7d".data)]) ∧
      jsonParse (js_to_json c7comma) = some (JValue.jobj [("a".data, JValue.jstr "\x7d".data)]) :=
  ⟨rfl, rfl, rfl, rfl⟩

/-- If a substitution pattern matches at no position of the input, the
substitution is the identity. -/
theorem subDriver_id (try1 : List Char → Option (List Char × List Char))
    (fuel : Nat) (l : List Char) (h : ∀ n : Nat, try1 (l.drop n) = none) :
    subDriver try1 fuel l = l := by
  induction fuel generalizing l with
  | zero => rfl
  | succ fuel ih =>
    cases l with
    | nil => rfl
    | cons c cs =>
      have h0 : try1 (c :: cs) = none := h 0
      rw [subDriver, h0]
      exact congrArg (c :: ·) (ih cs (fun n => h (n + 1)))

/-- Same for the line-anchored substitution driver. -/
theorem subDriverLS_id (try1 : List Char → Option (List Char × List Char))
    (fuel : Nat) (l : List Char) (atLS : Bool)
    (h : ∀ n : Nat, try1 (l.drop n) = none) :
    subDriverLS try1 fuel l atLS = l := by
  induction fuel generalizing l atLS with
  | zero => rfl
  | succ fuel ih =>
    cases l with
    | nil => rfl
    | cons c cs =>
      have h0 : try1 (c :: cs) = none := h 0
      cases atLS with
      | true =>
        rw [subDriverLS, if_pos rfl, h0]
        exact congrArg (c :: ·) (ih cs _ (fun n => h (n + 1)))
      | false =>
        rw [subDriverLS, if_neg (by simp)]
        exact congrArg (c :: ·) (ih cs _ (fun n => h (n + 1)))

/-- `_fix_quotes` is the identity on input without single quotes. -/
theorem fixQuotesAux_id : ∀ (l : List Char) (inD : Bool), '\x27' ∉ l →
    fixQuotesAux l inD false = l
  | [], _, _ => rfl
  | [c], inD, h => by
    have hc : c ≠ '\x27' := by intro hc; exact h (by simp [hc])
    rw [fixQuotesAux.eq_2]
    split_ifs <;> rfl
  | c :: d :: ds, inD, h => by
    have hc : c ≠ '\x27' := by intro hc; exact h (by simp [hc])
    have hds : '\x27' ∉ ds := fun hm => h (by simp [hm])
    have hdds : '\x27' ∉ d :: ds := fun hm => h (by simp at hm ⊢; tauto)
    rw [fixQuotesAux.eq_3]
    split_ifs
    all_goals first
      | rw [fixQuotesAux_id ds inD hds]
      | rw [fixQuotesAux_id (d :: ds) (!inD) hdds]
      | rw [fixQuotesAux_id (d :: ds) inD hdds]

/-- C7 (amended): the conversion is the identity — and therefore reparses to
an equal structure — on valid JSON object strings in which none of its
rewrite patterns occurs anywhere: no `//` or `/*` comment opener, no single
quote, and no occurrence of the bare-key or trailing-comma patterns.  (The
counterexample shows the restriction is necessary: the rewrites fire inside
string literals, so unrestricted idempotence fails.) -/
theorem claim_C7 (l : List Char) (v : JValue)
    (hparse : jsonParse l = some v)
    (h1 : ∀ n < l.length, tryLineComment (l.drop n) = none)
    (h2 : ∀ n < l.length, tryBlockComment (l.drop n) = none)
    (h3 : '\x27' ∉ l)
    (h4 : ∀ n < l.length, tryKey clsKey1 (l.drop n) = none)
    (h5 : ∀ n < l.length, tryKeyLine (l.drop n) = none)
    (h6 : ∀ n < l.length, tryTrailComma (l.drop n) = none) :
    js_to_json l = l ∧ jsonParse (js_to_json l) = some v := by
  have ext : ∀ (f : List Char → Option (List Char × List Char)),
      f [] = none → (∀ n < l.length, f (l.drop n) = none) →
      ∀ n : Nat, f (l.drop n) = none := by
    intro f hnil hb n
    by_cases hn : n < l.length
    · exact hb n hn
    · rw [List.drop_eq_nil_of_le (by omega)]
      exact hnil
  have hid : js_to_json l = l := by
    rw [js_to_json]
    rw [subDriver_id tryLineComment l.length l (ext _ rfl h1)]
    rw [subDriver_id tryBlockComment l.length l (ext _ rfl h2)]
    rw [show fix_quotes l = l from fixQuotesAux_id l false h3]
    rw [subDriver_id (tryKey clsKey1) l.length l (ext _ rfl h4)]
    rw [subDriverLS_id tryKeyLine l.length l true (ext _ rfl h5)]
    rw [subDriver_id tryTrailComma l.length l (ext _ rfl h6)]
  exact ⟨hid, by rw [hid]; exact hparse⟩

/-- A clean JSON object string for the C7 witness. -/
def c7clean : List Char := "\x7b\"a\": \"b\"\x7d".data

/-- Witness for the amended C7: on `\x7b"a": "b"\x7d` all hypotheses hold
and conversion is the identity. -/
theorem claim_C7_witness :
    js_to_json c7clean = c7clean ∧
      jsonParse (js_to_json c7clean) =
        some (JValue.jobj [("a".data, JValue.jstr "b".data)]) :=
  claim_C7 c7clean _ rfl (by decide) (by decide) (by decide) (by decide)
    (by decide) (by decide)

/-! ## `ChunkingService._is_header_line` and `_looks_like_header`
(chunking.py, lines 180-231)

The classifier is applied to lines produced by `text.split('\n')`, so its
input never contains a newline; the regex compilations below are exact on
newline-free input (verified pattern by pattern against Python `re`). -/

/-- `^#\x7b1,6\x7d\s+` (markdown ATX marker): one to six `#` followed by a
whitespace character. -/
def matchATX (l : List Char) : Bool :=
  let hashes := l.takeWhile (fun c => c = '#')
  1 ≤ hashes.length && hashes.length ≤ 6 &&
    (match l.drop hashes.length with
     | c :: _ => isPySpace c
     | [] => false)

/-- The domain-vocabulary terms of the first header pattern. -/
def headerVocab : List (List Char) :=
  ["Overview".data, "Management".data, "Processing".data, "Policy".data,
   "Information".data, "Details".data, "System".data, "Tracking".data,
   "Verification".data, "Validation".data, "Fulfillment".data,
   "Cancellation".data]

/-- `^.*(Overview|Management|…).*$` with IGNORECASE: one of the terms occurs
as a case-insensitive substring. -/
def matchVocab (l : List Char) : Bool :=
  headerVocab.any (fun w => containsSub (lowerL l) (lowerL w))

/-- `^[A-Z][a-zA-Z\s]*[A-Z][a-zA-Z\s]*$` with IGNORECASE: every character a
letter or whitespace, the first a letter, and at least two letters. -/
def matchTitleCase (l : List Char) : Bool :=
  match l with
  | [] => false
  | c :: rest =>
    isAsciiLetter c && (c :: rest).all isLetterOrSpace &&
      2 ≤ ((c :: rest).filter isAsciiLetter).length

/-- `^[A-Z][a-zA-Z\s]\x7b8,50\x7d$` with IGNORECASE: a letter followed by 8
to 50 letters/whitespace. -/
def matchShortPhrase (l : List Char) : Bool :=
  match l with
  | [] => false
  | c :: rest =>
    isAsciiLetter c && rest.all isLetterOrSpace &&
      9 ≤ (c :: rest).length && (c :: rest).length ≤ 51

/-- `_looks_like_header(line)`: length bound 80, then `^[A-Z][a-zA-Z\s]+$`
or `^[A-Z][a-zA-Z\s]+:$` (case-sensitive). -/
def looks_like_header (l : List Char) : Bool :=
  if 80 < l.length then false
  else
    (match l with
     | c :: rest => isAsciiUpper c && 1 ≤ rest.length && rest.all isLetterOrSpace
     | [] => false) ||
    (match l with
     | c :: rest =>
       isAsciiUpper c && 2 ≤ rest.length && rest.getLast? = some ':' &&
         (rest.take (rest.length - 1)).all isLetterOrSpace
     | [] => false)

/-- `_is_header_line(line, line_index, all_lines)`. -/
def is_header_line (line : List Char) (i : Nat) (all : List (List Char)) : Bool :=
  let ls := pyStrip line
  if ls.isEmpty then false
  else if matchATX ls then true
  else
    let hasContentAfter :=
      match all.get? (i + 1) with
      | some nl =>
        let nls := pyStrip nl
        !nls.isEmpty && !looks_like_header nls
      | none => false
    if 100 < ls.length || ls.length < 3 then false
    else (matchVocab ls || matchTitleCase ls || matchShortPhrase ls) &&
      hasContentAfter

/-! ## `ChunkingService._split_by_header_sections` (chunking.py, 119-178)

The Python loop keeps a `current_section` list of raw lines; on a header
line it flushes the current section (if non-empty) and starts a new one
with the header, then the inner `while` absorbs lines until the next header
— which the outer loop then re-examines with the same (deterministic)
predicate and treats identically.  The recursion below is that loop with
the inner `while` folded into the outer one: at each line, if it is a
header and the current section is non-empty, flush and restart, otherwise
append. -/

def secFlush (cur : List (List Char)) : List Char := pyStrip (joinNL cur)

/-- The loop of `_split_by_header_sections` over the enumerated lines. -/
def sectionsAux (all : List (List Char)) :
    List (Nat × List Char) → List (List Char) → List (List Char)
  | [], cur => if cur.isEmpty then [] else [secFlush cur]
  | (i, l) :: rest, cur =>
    if is_header_line (pyStrip l) i all && !cur.isEmpty then
      secFlush cur :: sectionsAux all rest [l]
    else
      sectionsAux all rest (cur ++ [l])

/-- `_split_by_header_sections(text)`. -/
def split_by_header_sections (text : List Char) : List (List Char) :=
  let lines := splitNL text
  (sectionsAux lines lines.enum []).filter (fun s => !(pyStrip s).isEmpty)

/-! ## Claim C4: the splitter partitions the line sequence -/

/-- The loop invariant of `_split_by_header_sections`: the emitted sections
are exactly a partition of the (indexed) lines into consecutive non-empty
runs in which only the first line can be a header. -/
theorem sectionsAux_spec (all : List (List Char)) :
    ∀ (rest : List (Nat × List Char)) (cur : List (Nat × List Char)),
    (∀ p ∈ cur.tail, is_header_line (pyStrip p.2) p.1 all = false) →
    ∃ runs : List (List (Nat × List Char)),
      runs.flatten = cur ++ rest ∧
      (∀ r ∈ runs, r ≠ []) ∧
      sectionsAux all rest (cur.map Prod.snd) =
        runs.map (fun r => secFlush (r.map Prod.snd)) ∧
      ∀ r ∈ runs, ∀ p ∈ r.tail, is_header_line (pyStrip p.2) p.1 all = false := by
  intro rest
  induction rest with
  | nil =>
    intro cur hcur
    cases cur with
    | nil => exact ⟨[], by simp, by simp, by simp [sectionsAux], by simp⟩
    | cons p cur' =>
      refine ⟨[p :: cur'], by simp, by simp, ?_, ?_⟩
      · simp [sectionsAux, secFlush]
      · intro r hr
        rw [List.mem_singleton] at hr
        subst hr
        exact hcur
  | cons il rest' ih =>
    intro cur hcur
    obtain ⟨i, l⟩ := il
    by_cases hbr : is_header_line (pyStrip l) i all = true ∧ cur ≠ []
    · -- flush the current section and start a new one with the header line
      obtain ⟨runs', hj, hne, hsec, htl⟩ := ih [(i, l)] (by simp)
      refine ⟨cur :: runs', ?_, ?_, ?_, ?_⟩
      · rw [show (cur :: runs').flatten = cur ++ runs'.flatten from rfl, hj]
        rfl
      · intro r hr
        rcases List.mem_cons.mp hr with h | h
        · subst h; exact hbr.2
        · exact hne r h
      · have hc : (cur.map Prod.snd).isEmpty = false := by
          cases cur with
          | nil => exact absurd rfl hbr.2
          | cons a b => rfl
        rw [sectionsAux, hbr.1, hc]
        simp only [Bool.not_false, Bool.and_self, if_true]
        rw [show [l] = [(i, l)].map Prod.snd from rfl, hsec]
        simp [secFlush]
      · intro r hr
        rcases List.mem_cons.mp hr with h | h
        · subst h; exact hcur
        · exact htl r h
    · -- append the line to the current section
      have htail : ∀ p ∈ (cur ++ [(i, l)]).tail,
          is_header_line (pyStrip p.2) p.1 all = false := by
        cases cur with
        | nil => simp
        | cons a b =>
          intro p hp
          simp only [List.cons_append, List.tail_cons] at hp
          rcases List.mem_append.mp hp with h | h
          · exact hcur p h
          · rw [List.mem_singleton] at h
            subst h
            rcases Decidable.not_and_iff_or_not.mp hbr with h | h
            · simpa using h
            · exact absurd (by simp) h
      obtain ⟨runs, hj, hne, hsec, htl⟩ := ih (cur ++ [(i, l)]) htail
      refine ⟨runs, by rw [hj]; simp, hne, ?_, htl⟩
      have hcond : ¬ (is_header_line (pyStrip l) i all &&
          !(cur.map Prod.snd).isEmpty) = true := by
        intro hc
        have hc' : is_header_line (pyStrip l) i all = true ∧
            (cur.map Prod.snd).isEmpty = false := by simpa using hc
        apply hbr
        refine ⟨hc'.1, ?_⟩
        intro hnil
        subst hnil
        simp at hc'
      rw [sectionsAux, if_neg hcond]
      rw [show cur.map Prod.snd ++ [l] = (cur ++ [(i, l)]).map Prod.snd by simp]
      exact hsec

/-- C4: the output sections of `_split_by_header_sections` come from a
partition of the input line sequence into consecutive non-empty runs —
every input line belongs to exactly one run, in the original order — where
each output section is its run joined back with newlines and stripped
(whitespace-only sections being dropped by the final filter), and within a
run only the first line can be a header line. -/
theorem claim_C4 (text : List Char) :
    ∃ runs : List (List (Nat × List Char)),
      runs.flatten = (splitNL text).enum ∧
      (∀ r ∈ runs, r ≠ []) ∧
      split_by_header_sections text =
        (runs.map (fun r => pyStrip (joinNL (r.map Prod.snd)))).filter
          (fun s => !(pyStrip s).isEmpty) ∧
      ∀ r ∈ runs, ∀ p ∈ r.tail,
        is_header_line (pyStrip p.2) p.1 (splitNL text) = false := by
  obtain ⟨runs, hj, hne, hsec, htl⟩ :=
    sectionsAux_spec (splitNL text) (splitNL text).enum [] (by simp)
  refine ⟨runs, by simpa using hj, hne, ?_, htl⟩
  rw [split_by_header_sections]
  rw [show sectionsAux (splitNL text) (splitNL text).enum [] =
        sectionsAux (splitNL text) (splitNL text).enum (([] : List (Nat × List Char)).map Prod.snd)
      from rfl, hsec]
  rfl

/-! ## Claim C5: the header classifier's lookahead -/

/-- The C5 claim's lookahead, as stated: the very next NON-BLANK line must
exist and not look like a header (spec wording). -/
def specHeaderClaimC5 (line : List Char) (i : Nat) (all : List (List Char)) : Bool :=
  let ls := pyStrip line
  (3 ≤ ls.length && ls.length ≤ 100) &&
    (matchVocab ls || matchTitleCase ls || matchShortPhrase ls) &&
    (match (all.drop (i + 1)).find? (fun l => !(pyStrip l).isEmpty) with
     | some nl => !looks_like_header (pyStrip nl)
     | none => false)

def c5lines : List (List Char) :=
  ["Inventory Management".data, "".data, "Orders are tracked every day.".data]

/-- Counterexample to C5 as stated: `Inventory Management` followed by one
blank line and then body text satisfies the claim's rule (the next
non-blank line is body text), yet the code classifies it as a non-header,
because its lookahead examines only the line at `index + 1` — here the
blank line. -/
theorem claim_C5_counterexample :
    is_header_line (pyStrip "Inventory Management".data) 0 c5lines = false ∧
      matchATX (pyStrip "Inventory Management".data) = false ∧
      specHeaderClaimC5 "Inventory Management".data 0 c5lines = true := by
  decide

/-- C5 (amended): for a line without a markdown ATX marker, the classifier
reports a header exactly when the stripped line is between 3 and 100
characters, matches one of the domain-vocabulary / title-case /
short-phrase patterns, and the line at the very next index exists, is
non-blank after stripping, and does not look like a header. -/
theorem claim_C5 (line : List Char) (i : Nat) (all : List (List Char))
    (hatx : matchATX (pyStrip line) = false) :
    is_header_line line i all = true ↔
      3 ≤ (pyStrip line).length ∧ (pyStrip line).length ≤ 100 ∧
        (matchVocab (pyStrip line) || matchTitleCase (pyStrip line) ||
          matchShortPhrase (pyStrip line)) = true ∧
        ∃ nl, all.get? (i + 1) = some nl ∧ (pyStrip nl).isEmpty = false ∧
          looks_like_header (pyStrip nl) = false := by
  rw [is_header_line]
  by_cases hemp : (pyStrip line).isEmpty
  · rw [if_pos hemp]
    have : (pyStrip line).length = 0 := by
      rwa [List.isEmpty_iff_length_eq_zero] at hemp
    simp [this]
  · rw [if_neg hemp, hatx]
    simp only [Bool.false_eq_true, if_false]
    by_cases hlen : 100 < (pyStrip line).length || (pyStrip line).length < 3
    · rw [if_pos hlen]
      have hlen2 : 100 < (pyStrip line).length ∨ (pyStrip line).length < 3 := by
        simpa using hlen
      constructor
      · intro hf; exact absurd hf (by simp)
      · rintro ⟨h1, h2, -⟩
        exfalso
        rcases hlen2 with h | h <;> omega
    · rw [if_neg hlen]
      have hlen2 : ¬ (100 < (pyStrip line).length ∨ (pyStrip line).length < 3) := by
        simpa using hlen
      have hlen' : 3 ≤ (pyStrip line).length ∧ (pyStrip line).length ≤ 100 := by
        push_neg at hlen2
        omega
      rw [Bool.and_eq_true]
      constructor
      · rintro ⟨hpat, hafter⟩
        refine ⟨hlen'.1, hlen'.2, hpat, ?_⟩
        cases hget : all.get? (i + 1) with
        | none => rw [hget] at hafter; exact absurd hafter (by simp)
        | some nl =>
          rw [hget] at hafter
          simp only [Bool.and_eq_true, Bool.not_eq_true'] at hafter
          exact ⟨nl, rfl, hafter.1, hafter.2⟩
      · rintro ⟨-, -, hpat, nl, hget, hnb, hnh⟩
        refine ⟨hpat, ?_⟩
        rw [hget]
        simp [hnb, hnh]

def c5wlines : List (List Char) :=
  ["Inventory Management".data, "Orders are tracked every day.".data]

/-- Witness for the amended C5 at a qualifying line directly followed by
body text. -/
theorem claim_C5_witness :
    is_header_line "Inventory Management".data 0 c5wlines = true ↔
      3 ≤ (pyStrip "Inventory Management".data).length ∧
        (pyStrip "Inventory Management".data).length ≤ 100 ∧
        (matchVocab (pyStrip "Inventory Management".data) ||
          matchTitleCase (pyStrip "Inventory Management".data) ||
          matchShortPhrase (pyStrip "Inventory Management".data)) = true ∧
        ∃ nl, c5wlines.get? 1 = some nl ∧ (pyStrip nl).isEmpty = false ∧
          looks_like_header (pyStrip nl) = false :=
  claim_C5 "Inventory Management".data 0 c5wlines (by decide)

/-! ## MD5 (`hashlib.md5`) and UTF-8 (`str.encode`), used by
`ChunkingService._generate_chunk_id` (chunking.py, 472-477)

A straightforward RFC 1321 implementation over `Nat` with explicit
`% 2^32`; only its determinism matters for the claims, never a digest
value. -/

/-- UTF-8 encoding of one code point. -/
def utf8Bytes (c : Char) : List Nat :=
  let n := c.toNat
  if n < 0x80 then [n]
  else if n < 0x800 then
    [0xC0 + n / 64, 0x80 + n % 64]
  else if n < 0x10000 then
    [0xE0 + n / 4096, 0x80 + n / 64 % 64, 0x80 + n % 64]
  else
    [0xF0 + n / 262144, 0x80 + n / 4096 % 64, 0x80 + n / 64 % 64, 0x80 + n % 64]

def utf8Encode (l : List Char) : List Nat := l.flatMap utf8Bytes

/-- The 64 MD5 constants `floor(abs(sin(i+1)) * 2^32)`. -/
def md5K : List Nat :=
  [3614090360, 3905402710, 606105819, 3250441966, 4118548399, 1200080426,
   2821735955, 4249261313, 1770035416, 2336552879, 4294925233, 2304563134,
   1804603682, 4254626195, 2792965006, 1236535329, 4129170786, 3225465664,
   643717713, 3921069994, 3593408605, 38016083, 3634488961, 3889429448,
   568446438, 3275163606, 4107603335, 1163531501, 2850285829, 4243563512,
   1735328473, 2368359562, 4294588738, 2272392833, 1839030562, 4259657740,
   2763975236, 1272893353, 4139469664, 3200236656, 681279174, 3936430074,
   3572445317, 76029189, 3654602809, 3873151461, 530742520, 3299628645,
   4096336452, 1126891415, 2878612391, 4237533241, 1700485571, 2399980690,
   4293915773, 2240044497, 1873313359, 4264355552, 2734768916, 1309151649,
   4149444226, 3174756917, 718787259, 3951481745]

/-- The per-round left-rotation amounts. -/
def md5S : List Nat :=
  [7, 12, 17, 22, 7, 12, 17, 22, 7, 12, 17, 22, 7, 12, 17, 22,
   5, 9, 14, 20, 5, 9, 14, 20, 5, 9, 14, 20, 5, 9, 14, 20,
   4, 11, 16, 23, 4, 11, 16, 23, 4, 11, 16, 23, 4, 11, 16, 23,
   6, 10, 15, 21, 6, 10, 15, 21, 6, 10, 15, 21, 6, 10, 15, 21]

def m32 : Nat := 4294967296

def rotl32 (x s : Nat) : Nat :=
  (x * 2 ^ s + x / 2 ^ (32 - s)) % m32

def md5NotW (x : Nat) : Nat := 4294967295 - x

/-- MD5 padding: `0x80`, zeros to 56 mod 64, 8-byte little-endian bit
length. -/
def md5Pad (msg : List Nat) : List Nat :=
  let padLen := (55 + 64 - msg.length % 64) % 64
  let bitLen := (8 * msg.length) % (2 ^ 64)
  msg ++ 0x80 :: List.replicate padLen 0 ++
    (List.range 8).map (fun i => bitLen / 2 ^ (8 * i) % 256)

/-- Split into 16 little-endian 32-bit words per 64-byte block. -/
def md5Words (block : List Nat) : List Nat :=
  (List.range 16).map (fun j =>
    block.getD (4 * j) 0 + block.getD (4 * j + 1) 0 * 256 +
      block.getD (4 * j + 2) 0 * 65536 + block.getD (4 * j + 3) 0 * 16777216)

/-- One of the 64 MD5 rounds. -/
def md5Round (m : List Nat) (st : Nat × Nat × Nat × Nat) (i : Nat) :
    Nat × Nat × Nat × Nat :=
  let a := st.1
  let b := st.2.1
  let c := st.2.2.1
  let d := st.2.2.2
  let fg : Nat × Nat :=
    if i < 16 then ((b.land c).lor ((md5NotW b).land d), i)
    else if i < 32 then ((d.land b).lor ((md5NotW d).land c), (5 * i + 1) % 16)
    else if i < 48 then ((b.xor c).xor d, (3 * i + 5) % 16)
    else (c.xor (b.lor (md5NotW d)), (7 * i) % 16)
  let f := (fg.1 + a + md5K.getD i 0 + m.getD fg.2 0) % m32
  (d, (b + rotl32 f (md5S.getD i 0)) % m32, b, c)

/-- Process one 64-byte block. -/
def md5Block (st : Nat × Nat × Nat × Nat) (block : List Nat) :
    Nat × Nat × Nat × Nat :=
  let m := md5Words block
  let r := (List.range 64).foldl (md5Round m) st
  ((st.1 + r.1) % m32, (st.2.1 + r.2.1) % m32,
   (st.2.2.1 + r.2.2.1) % m32, (st.2.2.2 + r.2.2.2) % m32)

def md5Chunks : Nat → List Nat → List (List Nat)
  | 0, _ => []
  | _ + 1, [] => []
  | fuel + 1, l => l.take 64 :: md5Chunks fuel (l.drop 64)

def hexDigit (n : Nat) : Char :=
  if n < 10 then Char.ofNat ('0'.toNat + n) else Char.ofNat ('a'.toNat + n - 10)

def byteHex (b : Nat) : List Char := [hexDigit (b / 16), hexDigit (b % 16)]

def wordLEHex (w : Nat) : List Char :=
  byteHex (w % 256) ++ byteHex (w / 256 % 256) ++ byteHex (w / 65536 % 256) ++
    byteHex (w / 16777216 % 256)

/-- `hashlib.md5(bytes).hexdigest()`. -/
def md5hex (msg : List Nat) : List Char :=
  let padded := md5Pad msg
  let st := (md5Chunks padded.length padded).foldl md5Block
    (0x67452301, 0xefcdab89, 0x98badcfe, 0x10325476)
  wordLEHex st.1 ++ wordLEHex st.2.1 ++ wordLEHex st.2.2.1 ++ wordLEHex st.2.2.2

/-! ## `ChunkingService._create_chunk` and `_generate_chunk_id`
(chunking.py, 457-477) -/

structure Chunk where
  chunk_id : List Char
  content : List Char
  source : List Char
  chunk_index : Nat
  chunk_type : List Char
  content_length : Nat
  word_count : Nat

/-- `_generate_chunk_id(content, source, chunk_index)`:
`f"\x7bsource\x7d_\x7bchunk_index\x7d_\x7bmd5-hash-of
(source, index, content[:100])-truncated-to-8\x7d"`. -/
def generate_chunk_id (content source : List Char) (idx : Nat) : List Char :=
  let hashInput := source ++ '_' :: (Nat.repr idx).data ++ '_' :: content.take 100
  source ++ '_' :: (Nat.repr idx).data ++ '_' :: (md5hex (utf8Encode hashInput)).take 8

/-- `_create_chunk(content, source, chunk_index, chunk_type)`. -/
def create_chunk (content source : List Char) (idx : Nat) (ctype : List Char) : Chunk :=
  { chunk_id := generate_chunk_id content source idx
    content := content
    source := source
    chunk_index := idx
    chunk_type := ctype
    content_length := content.length
    word_count := (pySplitWs content).length }

/-- C9: chunk identifiers depend only on the first 100 characters of the
content — two contents agreeing on their first 100 characters receive the
same id at the same source and index, however much they differ beyond that
point, so two distinct chunks can share one id. -/
theorem claim_C9 (source : List Char) (idx : Nat) (c1 c2 : List Char)
    (h : c1.take 100 = c2.take 100) :
    generate_chunk_id c1 source idx = generate_chunk_id c2 source idx := by
  unfold generate_chunk_id
  rw [h]

def c9a : List Char := List.replicate 100 'a' ++ "first tail".data

def c9b : List Char := List.replicate 100 'a' ++ "completely different tail".data

/-- Witness for C9: two contents equal on their first 100 characters but
different afterwards get identical ids. -/
theorem claim_C9_witness :
    c9a.take 100 = c9b.take 100 ∧ c9a ≠ c9b ∧
      generate_chunk_id c9a "src".data 0 = generate_chunk_id c9b "src".data 0 :=
  ⟨by decide, by decide, claim_C9 "src".data 0 c9a c9b (by decide)⟩

/-! ## `ChunkingService` configuration and `_detect_content_type`
(chunking.py, 11-81) -/

structure ChunkingSvc where
  chunk_size : Nat
  overlap_size : Nat
  min_chunk_size : Nat

/-- The constructor defaults: `chunk_size=500, overlap_size=50,
min_chunk_size=100`. -/
def chunkingDefault : ChunkingSvc := ⟨500, 50, 100⟩

/-- `re.search` of a `^`-anchored pattern (MULTILINE): the attempt predicate
is applied at the start of the text and after every newline (and at the
final empty suffix, where every pattern here fails). -/
def anyLineStartAux (f : List Char → Bool) : List Char → Bool → Bool
  | [], atLS => atLS && f []
  | c :: cs, atLS => (atLS && f (c :: cs)) || anyLineStartAux f cs (c == '\n')

def anyLineStart (f : List Char → Bool) (l : List Char) : Bool :=
  anyLineStartAux f l true

/-- `^\s*\d+\.\s+` attempted at a line start (the leading `\s*` may cross
newlines). -/
def tryNumberedAt (s : List Char) : Bool :=
  let r := s.dropWhile isPySpace
  let ds := r.takeWhile isAsciiDigit
  !ds.isEmpty &&
    (match r.drop ds.length with
     | '.' :: t =>
       (match t with
        | c :: _ => isPySpace c
        | [] => false)
     | _ => false)

/-- `^\s*Step\s+\d+` attempted at a line start. -/
def tryStepNAt (s : List Char) : Bool :=
  let r := s.dropWhile isPySpace
  startsWithL "Step".data r &&
    (let t := r.drop 4
     (match t with
      | c :: _ => isPySpace c
      | [] => false) &&
       (match t.dropWhile isPySpace with
        | c :: _ => isAsciiDigit c
        | [] => false))

/-- `_detect_content_type(text, source, chunk_type)`. -/
def detect_content_type (text source ctype : List Char) : List Char :=
  if !ctype.isEmpty && ctype ≠ "general".data then ctype
  else if containsSub (lowerL source) "openapi".data ||
      containsSub (lowerL source) "swagger".data then "openapi".data
  else if (containsSub (lowerL text) "process".data ||
        containsSub (lowerL text) "workflow".data ||
        containsSub (lowerL text) "step".data) &&
      (anyLineStart tryNumberedAt text || anyLineStart tryStepNAt text ||
        2 ≤ countSub (lowerL text) "step".data) then "process".data
  else "general".data

/-! ## `ChunkingService._chunk_general_text` (chunking.py, 83-117) -/

/-- The section loop: skip sections below `min(min_chunk_size, 50)` without
advancing the index, otherwise emit a chunk and advance. -/
def chunk_general_aux (minSz : Nat) (source : List Char) :
    List (List Char) → Nat → List Chunk
  | [], _ => []
  | s :: rest, idx =>
    let sc := pyStrip s
    if sc.length < minSz then chunk_general_aux minSz source rest idx
    else create_chunk sc source idx "general".data ::
      chunk_general_aux minSz source rest (idx + 1)

/-- `_chunk_general_text(text, source)`: header-aware sections, with the
lowered threshold `min_size_for_headers = min(self.min_chunk_size, 50)`. -/
def chunk_general_text (svc : ChunkingSvc) (text source : List Char) : List Chunk :=
  chunk_general_aux (min svc.min_chunk_size 50) source
    (split_by_header_sections text) 0

/-! ## `ChunkingService._chunk_openapi_specification` and helpers
(chunking.py, 283-372, 433-455) -/

/-- One attempt of `^\s*/[^:\n]+:.*?(?=…)` (MULTILINE|DOTALL) at a line
start.  Because `$` in MULTILINE matches before every newline, the lazy
`.*?` always stops at the end of the line containing the colon, so a match
is: leading whitespace (possibly spanning blank lines), `/`, a non-empty
colon-free segment, `:`, and the rest of that line. -/
def tryEndpointAt (s : List Char) : Option (List Char × List Char) :=
  let ws := s.takeWhile isPySpace
  match s.drop ws.length with
  | '/' :: r2 =>
    let seg := r2.takeWhile (fun c => c ≠ ':' && c ≠ '\n')
    if seg.isEmpty then none
    else
      match r2.drop seg.length with
      | ':' :: tail =>
        let lineRest := tail.takeWhile (fun c => c ≠ '\n')
        some (ws ++ '/' :: seg ++ ':' :: lineRest, tail.drop lineRest.length)
      | _ => none
  | _ => none

/-- `re.finditer` for the endpoint pattern: leftmost matches at line starts,
scanning resuming after each match. -/
def endpointAux (f : List Char → Option (List Char × List Char)) :
    Nat → List Char → Bool → List (List Char)
  | 0, _, _ => []
  | _ + 1, [], _ => []
  | fuel + 1, c :: cs, atLS =>
    if atLS then
      match f (c :: cs) with
      | some (g, rest) => g :: endpointAux f fuel rest false
      | none => endpointAux f fuel cs (c == '\n')
    else endpointAux f fuel cs (c == '\n')

def httpMethodsCI : List (List Char) :=
  ["get:".data, "post:".data, "put:".data, "delete:".data, "patch:".data]

/-- `_extract_endpoint_chunks(text)`: each match stripped, kept only when it
mentions an HTTP method (case-insensitive `(get|post|put|delete|patch):`)
and is at least 50 characters long. -/
def extract_endpoint_chunks (text : List Char) : List (List Char) :=
  ((endpointAux tryEndpointAt (text.length + 1) text true).map pyStrip).filter
    (fun e => httpMethodsCI.any (fun m => containsSub (lowerL e) m) &&
      50 ≤ e.length)

def openapiSectionKeys : List (List Char) :=
  ["info".data, "servers".data, "paths".data, "components".data,
   "security".data, "tags".data]

/-- One section pattern `(^name:.*?)(?=^[a-zA-Z_][a-zA-Z0-9_]*:|$)`
(MULTILINE|DOTALL): as with the endpoint pattern, `$` before every newline
makes each match exactly the matching line; the code keeps the first match
whose stripped text is non-empty and at least 30 characters. -/
def findOpenapiSection (text : List Char) (name : List Char) : Option (List Char) :=
  (((splitNL text).filter (fun l => startsWithL (name ++ [':']) l)).map pyStrip).find?
    (fun c => !c.isEmpty && 30 ≤ c.length)

/-- `_extract_openapi_sections(text)` in the dict's insertion order. -/
def extract_openapi_sections (text : List Char) : List (List Char × List Char) :=
  openapiSectionKeys.filterMap
    (fun n => (findOpenapiSection text n).map (fun c => (n, c)))

/-- `^[a-zA-Z_][a-zA-Z0-9_]*:` at column 0. -/
def yamlLineMatch (l : List Char) : Bool :=
  match l with
  | c :: rest =>
    isWordStart c &&
      (match rest.drop (rest.takeWhile isWordChar).length with
       | ':' :: _ => true
       | _ => false)
  | [] => false

/-- The fallback grouping of `_split_by_yaml_sections`: start a new group at
every non-blank unindented line containing a colon. -/
def yamlFallbackAux : List (List Char) → List (List Char) → List (List Char)
  | [], cur => if cur.isEmpty then [] else [joinNL cur]
  | l :: rest, cur =>
    if !(pyStrip l).isEmpty && !startsWithL [' '] l && l.contains ':' then
      if cur.isEmpty then yamlFallbackAux rest (cur ++ [l])
      else joinNL cur :: yamlFallbackAux rest [l]
    else yamlFallbackAux rest (cur ++ [l])

/-- `_split_by_yaml_sections(text)`. -/
def split_by_yaml_sections (text : List Char) : List (List Char) :=
  let lines := splitNL text
  let sections := lines.filter yamlLineMatch
  let sections2 := if sections.isEmpty then yamlFallbackAux lines [] else sections
  (sections2.map pyStrip).filter (fun s => !s.isEmpty)

/-- The shared chunk-emission loop: strip, keep only content of at least
`min_chunk_size` characters, number the kept chunks consecutively; returns
the chunks and the next index. -/
def assemblePairs (minSz : Nat) (source : List Char) :
    List (List Char × List Char) → Nat → List Chunk × Nat
  | [], idx => ([], idx)
  | (s, ty) :: rest, idx =>
    if minSz ≤ (pyStrip s).length then
      let r := assemblePairs minSz source rest (idx + 1)
      (create_chunk (pyStrip s) source idx ty :: r.1, r.2)
    else assemblePairs minSz source rest idx

/-- `_chunk_openapi_specification(text, source)`. -/
def chunk_openapi_specification (svc : ChunkingSvc) (text source : List Char) :
    List Chunk :=
  let ep := (extract_endpoint_chunks text).map (fun e => (e, "api_endpoint".data))
  let p1 := assemblePairs svc.min_chunk_size source ep 0
  let secs := (extract_openapi_sections text).map
    (fun p => (p.2, "api_".data ++ p.1))
  let p2 := assemblePairs svc.min_chunk_size source secs p1.2
  if (p1.1 ++ p2.1).isEmpty then
    let ys := (split_by_yaml_sections text).map (fun s => (s, "api_section".data))
    (assemblePairs svc.min_chunk_size source ys p2.2).1
  else p1.1 ++ p2.1

/-! ## `ChunkingService._chunk_process_documentation` (chunking.py, 374-412) -/

/-- The lookahead `\d+\.\s+` of the step pattern. -/
def stepLookAt (v : List Char) : Bool :=
  let ds := v.takeWhile isAsciiDigit
  !ds.isEmpty &&
    (match v.drop ds.length with
     | '.' :: t =>
       (match t with
        | c :: _ => isPySpace c
        | [] => false)
     | _ => false)

/-- `$` without MULTILINE: end of input, or just before a final newline. -/
def dollarNoM (v : List Char) : Bool := v.isEmpty || v = ['\n']

/-- Lazy `.*?` up to the first position satisfying the given lookahead or
`$`: consumed characters and remaining input. -/
def lazySpan (look : List Char → Bool) : Nat → List Char → List Char × List Char
  | 0, s => ([], s)
  | fuel + 1, s =>
    if look s || dollarNoM s then ([], s)
    else
      match s with
      | [] => ([], [])
      | c :: cs =>
        let r := lazySpan look fuel cs
        (c :: r.1, r.2)

/-- One attempt of `(\d+\.\s+.*?)(?=\d+\.\s+|$)` (DOTALL).  The greedy
`\s+` consumes the whole whitespace run after the dot before the lazy `.*?`
starts, and it is never backtracked: the lazy scan always succeeds at the
latest at end-of-input, where `$` holds.  (The lookahead cannot hold inside
the whitespace run, since it starts with a digit or a bullet.) -/
def tryStepMatch (s : List Char) : Option (List Char × List Char) :=
  let ds := s.takeWhile isAsciiDigit
  if ds.isEmpty then none
  else
    match s.drop ds.length with
    | '.' :: t =>
      let ws := t.takeWhile isPySpace
      if ws.isEmpty then none
      else
        let t2 := t.drop ws.length
        let sp := lazySpan stepLookAt t2.length t2
        some (ds ++ '.' :: ws ++ sp.1, sp.2)
    | _ => none

def bulletChars : List Char := [Char.ofNat 0x2022, '-', '*']

/-- The lookahead `[•\-\*]\s+` of the bullet pattern. -/
def bulletLookAt (v : List Char) : Bool :=
  match v with
  | c :: d :: _ => bulletChars.contains c && isPySpace d
  | _ => false

/-- One attempt of `([•\-\*]\s+.*?)(?=[•\-\*]\s+|$)` (DOTALL); the greedy
`\s+` behaves as in `tryStepMatch`. -/
def tryBulletMatch (s : List Char) : Option (List Char × List Char) :=
  match s with
  | c :: t =>
    if bulletChars.contains c then
      let ws := t.takeWhile isPySpace
      if ws.isEmpty then none
      else
        let t2 := t.drop ws.length
        let sp := lazySpan bulletLookAt t2.length t2
        some (c :: ws ++ sp.1, sp.2)
    else none
  | [] => none

/-- `re.findall` for an unanchored pattern: leftmost-first, resuming after
each match. -/
def findAllAux (f : List Char → Option (List Char × List Char)) :
    Nat → List Char → List (List Char)
  | 0, _ => []
  | _ + 1, [] => []
  | fuel + 1, c :: cs =>
    match f (c :: cs) with
    | some (g, rest) => g :: findAllAux f fuel rest
    | none => findAllAux f fuel cs

/-- `_chunk_process_documentation(text, source)`. -/
def chunk_process_documentation (svc : ChunkingSvc) (text source : List Char) :
    List Chunk :=
  let steps := findAllAux tryStepMatch (text.length + 1) text
  if !steps.isEmpty then
    (assemblePairs svc.min_chunk_size source
      (steps.map (fun s => (s, "process_step".data))) 0).1
  else
    let bullets := findAllAux tryBulletMatch (text.length + 1) text
    if !bullets.isEmpty then
      (assemblePairs svc.min_chunk_size source
        (bullets.map (fun s => (s, "process_item".data))) 0).1
    else chunk_general_text svc text source

/-! ## `ChunkingService.chunk_text` (chunking.py, 28-59) -/

/-- `chunk_text(text, source, chunk_type)`: degenerate input yields no
chunks; otherwise dispatch on the detected content type. -/
def chunk_text (svc : ChunkingSvc) (text source ctype : List Char) : List Chunk :=
  if text.isEmpty || (pyStrip text).length < svc.min_chunk_size then []
  else
    let dt := detect_content_type text source ctype
    if dt = "openapi".data then chunk_openapi_specification svc text source
    else if dt = "process".data then chunk_process_documentation svc text source
    else chunk_general_text svc text source

/-! ## Claim C6: the minimum-size threshold -/

def c6text : List Char :=
  ("Inventory Management\nStock levels are reviewed each day.\n\n" ++
   "Shipping Overview\nParcels leave the warehouse every weekday at noon sharp.").data

set_option maxRecDepth 40000 in
/-- Counterexample to C6 as stated: with the default configuration
(`min_chunk_size = 100`) this general text produces chunks of 56 and 74
characters — the general-text strategy deliberately lowers the threshold to
`min(min_chunk_size, 50)` for header-based sections, so chunks shorter than
`min_chunk_size` are emitted. -/
theorem claim_C6_counterexample :
    ((chunk_text chunkingDefault c6text "docs".data "general".data).map
        Chunk.content_length).any
      (fun n => n < chunkingDefault.min_chunk_size) = true := rfl

theorem chunk_general_aux_bound (m : Nat) (src : List Char) :
    ∀ (secs : List (List Char)) (idx : Nat) (c : Chunk),
    c ∈ chunk_general_aux m src secs idx → m ≤ c.content_length := by
  intro secs
  induction secs with
  | nil => intro idx c hc; simp [chunk_general_aux] at hc
  | cons s rest ih =>
    intro idx c hc
    by_cases hm : (pyStrip s).length < m
    · rw [show chunk_general_aux m src (s :: rest) idx =
            chunk_general_aux m src rest idx by
          simp [chunk_general_aux, hm]] at hc
      exact ih idx c hc
    · rw [show chunk_general_aux m src (s :: rest) idx =
            create_chunk (pyStrip s) src idx "general".data ::
              chunk_general_aux m src rest (idx + 1) by
          simp [chunk_general_aux, hm]] at hc
      rcases List.mem_cons.mp hc with hc | hc
      · subst hc
        simp only [create_chunk]
        omega
      · exact ih (idx + 1) c hc

theorem chunk_general_text_bound (svc : ChunkingSvc) (text source : List Char)
    (c : Chunk) (hc : c ∈ chunk_general_text svc text source) :
    min svc.min_chunk_size 50 ≤ c.content_length :=
  chunk_general_aux_bound _ source _ 0 c hc

theorem assemblePairs_bound (m : Nat) (src : List Char) :
    ∀ (items : List (List Char × List Char)) (idx : Nat) (c : Chunk),
    c ∈ (assemblePairs m src items idx).1 → m ≤ c.content_length := by
  intro items
  induction items with
  | nil => intro idx c hc; simp [assemblePairs] at hc
  | cons p rest ih =>
    intro idx c hc
    obtain ⟨s, ty⟩ := p
    by_cases hm : m ≤ (pyStrip s).length
    · rw [show (assemblePairs m src ((s, ty) :: rest) idx).1 =
            create_chunk (pyStrip s) src idx ty ::
              (assemblePairs m src rest (idx + 1)).1 by
          simp [assemblePairs, hm]] at hc
      rcases List.mem_cons.mp hc with hc | hc
      · subst hc
        simpa [create_chunk] using hm
      · exact ih (idx + 1) c hc
    · rw [show (assemblePairs m src ((s, ty) :: rest) idx).1 =
            (assemblePairs m src rest idx).1 by
          simp [assemblePairs, hm]] at hc
      exact ih idx c hc

theorem chunk_openapi_bound (svc : ChunkingSvc) (text source : List Char)
    (c : Chunk) (hc : c ∈ chunk_openapi_specification svc text source) :
    svc.min_chunk_size ≤ c.content_length := by
  rw [chunk_openapi_specification] at hc
  set ep := (extract_endpoint_chunks text).map
    (fun e => (e, "api_endpoint".data)) with hep
  set p1 := assemblePairs svc.min_chunk_size source ep 0 with hp1
  set secs := (extract_openapi_sections text).map
    (fun p => (p.2, "api_".data ++ p.1)) with hsecs
  set p2 := assemblePairs svc.min_chunk_size source secs p1.2 with hp2
  simp only at hc
  by_cases hemp : (p1.1 ++ p2.1).isEmpty
  · rw [if_pos hemp] at hc
    exact assemblePairs_bound _ source _ _ c hc
  · rw [if_neg hemp] at hc
    rcases List.mem_append.mp hc with h | h
    · exact assemblePairs_bound _ source ep 0 c (hp1 ▸ h)
    · exact assemblePairs_bound _ source secs p1.2 c (hp2 ▸ h)

theorem chunk_process_bound (svc : ChunkingSvc) (text source : List Char)
    (c : Chunk) (hc : c ∈ chunk_process_documentation svc text source) :
    min svc.min_chunk_size 50 ≤ c.content_length := by
  rw [chunk_process_documentation] at hc
  by_cases hs : ((findAllAux tryStepMatch (text.length + 1) text).isEmpty : Bool)
  · rw [if_neg (by simp [hs])] at hc
    by_cases hb : ((findAllAux tryBulletMatch (text.length + 1) text).isEmpty : Bool)
    · rw [if_neg (by simp [hb])] at hc
      exact chunk_general_text_bound svc text source c hc
    · rw [if_pos (by simpa using hb)] at hc
      exact Nat.le_trans (Nat.min_le_left _ _)
        (assemblePairs_bound _ source _ 0 c hc)
  · rw [if_pos (by simpa using hs)] at hc
    exact Nat.le_trans (Nat.min_le_left _ _)
      (assemblePairs_bound _ source _ 0 c hc)

/-- C6 (amended): every chunk produced by `chunk_text` has content length at
least `min(min_chunk_size, 50)` — the general-text strategy deliberately
lowers the threshold to 50 for header-based sections, while the OpenAPI and
process strategies enforce the full `min_chunk_size`; content below the
threshold is omitted, never emitted as a smaller chunk. -/
theorem claim_C6 (svc : ChunkingSvc) (text source ctype : List Char) (c : Chunk)
    (hc : c ∈ chunk_text svc text source ctype) :
    min svc.min_chunk_size 50 ≤ c.content_length := by
  rw [chunk_text] at hc
  by_cases h0 : (text.isEmpty || (pyStrip text).length < svc.min_chunk_size) = true
  · rw [if_pos h0] at hc
    simp at hc
  · rw [if_neg h0] at hc
    simp only at hc
    by_cases h1 : detect_content_type text source ctype = "openapi".data
    · rw [if_pos h1] at hc
      exact Nat.le_trans (Nat.min_le_left _ _)
        (chunk_openapi_bound svc text source c hc)
    · rw [if_neg h1] at hc
      by_cases h2 : detect_content_type text source ctype = "process".data
      · rw [if_pos h2] at hc
        exact chunk_process_bound svc text source c hc
      · rw [if_neg h2] at hc
        exact chunk_general_text_bound svc text source c hc

instance : Inhabited Chunk := ⟨⟨[], [], [], 0, [], 0, 0⟩⟩

theorem headIMem {α : Type} [Inhabited α] (l : List α) (h : l ≠ []) :
    l.headI ∈ l := by
  cases l with
  | nil => exact absurd rfl h
  | cons a rest => exact List.mem_cons_self a rest

set_option maxRecDepth 40000 in
theorem c6wNonempty :
    chunk_text chunkingDefault c6text "docs".data "general".data ≠ [] := by
  intro h
  have hl := congrArg List.length h
  rw [show (chunk_text chunkingDefault c6text "docs".data "general".data).length
      = 2 from rfl] at hl
  exact absurd hl (by decide)

/-- Witness for the amended C6 at the counterexample input: its first chunk
meets the lowered threshold. -/
theorem claim_C6_witness :
    min chunkingDefault.min_chunk_size 50 ≤
      (chunk_text chunkingDefault c6text "docs".data
        "general".data).headI.content_length :=
  claim_C6 chunkingDefault c6text "docs".data "general".data _
    (headIMem _ c6wNonempty)

end CBPortal
